import Mathlib

/-!
Verification of the notification sequencing and priority-scheduling engine of
the ha-color-notify repository.  The definitions below are a shallow embedding
of `src/utils/light_sequence.py` and `src/light.py`: Python floats are
modelled as exact rationals, machine integers as `Int`/`Nat`, dictionaries as
association lists (Python dict keys are unique and insertion ordered), and
fallible code returns `Except`/`Option`.
-/

set_option maxRecDepth 4000

/-- `OFF_RGB` from `src/const.py`. -/
def OFF_RGB : Int × Int × Int := (0, 0, 0)

/-- `WARM_WHITE_RGB` from `src/const.py`. -/
def WARM_WHITE_RGB : Int × Int × Int := (255, 249, 216)

/-- `ColorInfo` from `src/utils/light_sequence.py` (also `_ColorInfo` in
`src/light.py`): an rgb triple and a brightness.  Python's float brightness is
modelled as an exact rational. -/
structure ColorInfo where
  rgb : Int × Int × Int := WARM_WHITE_RGB
  brightness : ℚ := 100
deriving DecidableEq, Repr

/-- Association-list lookup, modelling Python `dict.get`. -/
def dget {κ β : Type} [DecidableEq κ] : List (κ × β) → κ → Option β
  | [], _ => none
  | (k', v') :: t, k => if k' = k then some v' else dget t k

/-- Association-list store, modelling Python `dict[k] = v` (replaces the
existing entry in place, otherwise appends, as an insertion-ordered dict
does). -/
def dset {κ β : Type} [DecidableEq κ] : List (κ × β) → κ → β → List (κ × β)
  | [], k, v => [(k, v)]
  | (k', v') :: t, k, v => if k' = k then (k, v) :: t else (k', v') :: dset t k v

/-- Association-list removal, modelling Python `dict.pop(k)` (dict keys are
unique, so removing the first occurrence is removing the key). -/
def dpop {κ β : Type} [DecidableEq κ] : List (κ × β) → κ → List (κ × β)
  | [], _ => []
  | (k', v') :: t, k => if k' = k then t else (k', v') :: dpop t k

/-- `_LoopInfo` from `src/utils/light_sequence.py`: per-loop runtime state. -/
structure LoopInfo where
  open_idx : ℕ := 0
  loop_cnt : ℕ := 0
deriving DecidableEq, Repr

/-- One step of a compiled sequence: the four `_SeqStep` subclasses of
`src/utils/light_sequence.py`.  A step's constructor arguments are the fields
set in its `__init__`; the step's position (`idx`, assigned by `_addStep`) is
supplied to `executeStep` by the interpreter, since `_addStep` always sets it
to the step's list position. -/
inductive Step where
  | setColor (c : ColorInfo)
  | openLoop (id : ℕ)
  | closeLoop (id : ℕ) (repeats : Int)
  | delay (secs : ℚ)
deriving DecidableEq, Repr

/-- `_SeqWorkspace` from `src/utils/light_sequence.py`.  The `data` dict is
keyed by loop id and holds `LoopInfo` values. -/
structure Workspace where
  next_idx : ℕ := 0
  cur_loop : ℕ := 0
  data : List (ℕ × LoopInfo) := []
  color : ColorInfo := {}
deriving DecidableEq, Repr

/-- The single fatal VM error: `_StepCloseLoop.execute` raises `ValueError`
when no frame exists for its loop id. -/
inductive VMError where
  | closeLoopNoOpen
deriving DecidableEq, Repr

/-- The `execute` methods of the four step classes
(`src/utils/light_sequence.py` lines 158-209).  `sIdx` is the step's own
index (`self.idx`).  `_StepDelay.execute` merely sleeps, which leaves the
workspace unchanged in this embedding. -/
def executeStep : Step → ℕ → Workspace → Except VMError Workspace
  | .setColor c, _, w => .ok { w with color := c }
  | .openLoop id, sIdx, w =>
    match dget w.data id with
    | some _ => .ok w
    | none => .ok { w with data := dset w.data id { open_idx := sIdx, loop_cnt := 0 } }
  | .closeLoop id reps, _, w =>
    match dget w.data id with
    | none => .error .closeLoopNoOpen
    | some info =>
      if reps < 0 ∨ ((info.loop_cnt + 1 : ℕ) : Int) ≤ reps then
        .ok { w with next_idx := info.open_idx,
                     data := dset w.data id { open_idx := info.open_idx,
                                              loop_cnt := info.loop_cnt + 1 } }
      else
        .ok { w with data := dpop w.data id }
  | .delay _, _, w => .ok w

/-- `LightSequence.runNextStep` (`src/utils/light_sequence.py` lines 53-60):
execute the step at `next_idx` after advancing `next_idx` by one, and report
whether the sequence is finished. -/
def runNextStep (steps : List Step) (w : Workspace) : Except VMError (Workspace × Bool) :=
  if h : w.next_idx < steps.length then
    match executeStep (steps.get ⟨w.next_idx, h⟩) w.next_idx { w with next_idx := w.next_idx + 1 } with
    | .error e => .error e
    | .ok w' => .ok (w', decide (steps.length ≤ w'.next_idx))
  else .ok (w, true)

/-- Iterate `runNextStep` for `fuel` steps (stopping early when the program is
finished), collecting the list of executed steps in order. -/
def runTrace (steps : List Step) : ℕ → Workspace → Except VMError (List Step × Workspace)
  | 0, w => .ok ([], w)
  | fuel + 1, w =>
    if h : w.next_idx < steps.length then
      match runNextStep steps w with
      | .error e => .error e
      | .ok (w', _) =>
        match runTrace steps fuel w' with
        | .error e => .error e
        | .ok (tr, wf) => .ok (steps.get ⟨w.next_idx, h⟩ :: tr, wf)
    else .ok ([], w)

/-- Workspaces reachable from `w₀` by successful `runNextStep` transitions. -/
inductive Reaches (steps : List Step) : Workspace → Workspace → Prop where
  | refl (w : Workspace) : Reaches steps w w
  | step {w₁ w₂ w₃ : Workspace} {d : Bool} :
      Reaches steps w₁ w₂ → runNextStep steps w₂ = .ok (w₃, d) → Reaches steps w₁ w₃

/-- The result of `json.loads` on a free-text pattern item, restricted to the
keys the compiler reads: an rgb value (the `rgb_color`/`rgb` keys, collapsed
into one optional field) and an optional `delay`. -/
structure ItemDict where
  rgb : Option (Int × Int × Int) := none
  delay : Option ℚ := none
deriving DecidableEq, Repr

/-- One item of the input pattern handed to `create_from_pattern`.  The
string tokenization (`strip`, `startswith`, `split`, `int(...)`) is applied
up front: `openBracket` is the token `[`, `closeBracket r` a token starting
with `]` carrying repeat count `r` (`-1` when no `,N` suffix), and
`freeText p` any other string, where `p` is `some` of the parsed JSON object
or `none` when `json.loads` raises. -/
inductive PatternItem where
  | colorItem (c : ColorInfo)
  | openBracket
  | closeBracket (repeats : Int)
  | freeText (parsed : Option ItemDict)
deriving DecidableEq, Repr

/-- Exceptions that can escape `create_from_pattern`: `loop_stack.pop()` on an
empty stack (`IndexError`), and reading the local variable `item_dict` when it
was never assigned because the very first free-text item failed to parse
(`UnboundLocalError`). -/
inductive CompileError where
  | unbalancedClose
  | unboundItemDict
deriving DecidableEq, Repr

/-- The compiler's loop-local state in `create_from_pattern`: the steps
emitted so far, `initial_color`, `next_loop_id`, `loop_stack`, and the last
value of the Python local `item_dict` (which survives across iterations and
is silently reused when a later parse fails). -/
structure CompileSt where
  steps : List Step := []
  initColor : Option ColorInfo := none
  nextLoopId : ℕ := 1
  loopStack : List ℕ := []
  lastItemDict : Option ItemDict := none
deriving DecidableEq, Repr

/-- One iteration of the `for item in pattern` loop of
`LightSequence.create_from_pattern` (`src/utils/light_sequence.py` lines
74-105).  Note the `except` branch only logs: on a parse failure the loop
body continues with the previous value of `item_dict` (or crashes when there
is none), exactly as the Python source does. -/
def compileItem (st : CompileSt) : PatternItem → Except CompileError CompileSt
  | .colorItem c =>
    .ok { st with steps := st.steps ++ [.setColor c],
                  initColor := st.initColor <|> some c }
  | .openBracket =>
    .ok { st with steps := st.steps ++ [.openLoop st.nextLoopId],
                  loopStack := st.nextLoopId :: st.loopStack,
                  nextLoopId := st.nextLoopId + 1 }
  | .closeBracket r =>
    match st.loopStack with
    | [] => .error .unbalancedClose
    | id :: rest =>
      .ok { st with steps := st.steps ++ [.closeLoop id r], loopStack := rest }
  | .freeText parsed =>
    match parsed <|> st.lastItemDict with
    | none => .error .unboundItemDict
    | some d =>
      let c : ColorInfo := { rgb := d.rgb.getD WARM_WHITE_RGB }
      let delaySteps : List Step :=
        match d.delay with
        | some t => if t = 0 then [] else [.delay t]
        | none => []
      .ok { st with steps := st.steps ++ [.setColor c] ++ delaySteps,
                    initColor := st.initColor <|> some c,
                    lastItemDict := some d }

/-- Fold `compileItem` over the whole pattern. -/
def compilePattern : List PatternItem → CompileSt → Except CompileError CompileSt
  | [], st => .ok st
  | item :: t, st =>
    match compileItem st item with
    | .error e => .error e
    | .ok st' => compilePattern t st'

/-- `LightSequence` from `src/utils/light_sequence.py`: the compiled steps
and the private workspace. -/
structure LightSequence where
  steps : List Step
  workspace : Workspace
deriving DecidableEq, Repr

/-- `LightSequence.create_from_pattern`: compile a pattern and seed the
workspace color with `initial_color or ColorInfo(OFF_RGB, 0)` (a `ColorInfo`
instance is always truthy, so `or` picks the default exactly when
`initial_color` is `None`). -/
def create_from_pattern (pattern : List PatternItem) : Except CompileError LightSequence :=
  match compilePattern pattern {} with
  | .error e => .error e
  | .ok st =>
    .ok { steps := st.steps,
          workspace := { next_idx := 0, cur_loop := 0, data := [],
                         color := st.initColor.getD { rgb := OFF_RGB, brightness := 0 } } }

/-- Python's built-in `round` on a non-negative-denominator rational:
round half to even (banker's rounding). -/
def pyRound (q : ℚ) : Int :=
  let f := ⌊q⌋
  let frac := q - f
  if frac < 1 / 2 then f
  else if 1 / 2 < frac then f + 1
  else if f % 2 = 0 then f else f + 1

/-- `NotificationLightEntity.mix_colors` (`src/light.py` lines 584-615):
default weights are uniform, weights are normalized to sum to 1, each rgb
channel and the brightness is a weighted sum, and each result is
`min(int(round(total)), 255)` — Python `round`, an upper clamp only.
`none` models the exceptions the Python code can raise: `ValueError` from
`zip(..., strict=True)` on a length mismatch and `ZeroDivisionError` when the
weights sum to zero (in particular for an empty color list). -/
def mix_colors (colors : List ColorInfo) (weights : Option (List ℚ)) : Option ColorInfo :=
  let ws := weights.getD (List.replicate colors.length 1)
  if ws.length = colors.length then
    let total := ws.sum
    if total = 0 then none
    else
      let nw := ws.map (fun w => w / total)
      let pairs := colors.zip nw
      let rT := (pairs.map (fun p => (p.1.rgb.1 : ℚ) * p.2)).sum
      let gT := (pairs.map (fun p => (p.1.rgb.2.1 : ℚ) * p.2)).sum
      let bT := (pairs.map (fun p => (p.1.rgb.2.2 : ℚ) * p.2)).sum
      let brT := (pairs.map (fun p => p.1.brightness * p.2)).sum
      some { rgb := (min (pyRound rT) 255, min (pyRound gT) 255, min (pyRound bT) 255),
             brightness := ((min (pyRound brT) 255 : Int) : ℚ) }
  else none

/-- Round half up, the rounding rule the specification names. -/
def roundHalfUp (q : ℚ) : Int := ⌊q + 1 / 2⌋

/-- Clamp to the interval `[0, 255]`, the clamping rule the specification
names. -/
def clampSpec (z : Int) : Int := max 0 (min z 255)

/-- Modelled from the spec's words for the Color Mixer, parameterized by the
rounding rule: normalize the weights to sum to 1, form the weighted sum of
each rgb channel and of brightness, round each, and clamp each to
`[0, 255]`. -/
def mixSpec (rnd : ℚ → Int) (colors : List ColorInfo) (weights : Option (List ℚ)) :
    Option ColorInfo :=
  let ws := weights.getD (List.replicate colors.length 1)
  if ws.length = colors.length then
    let total := ws.sum
    if total = 0 then none
    else
      let nw := ws.map (fun w => w / total)
      let pairs := colors.zip nw
      let rT := (pairs.map (fun p => (p.1.rgb.1 : ℚ) * p.2)).sum
      let gT := (pairs.map (fun p => (p.1.rgb.2.1 : ℚ) * p.2)).sum
      let bT := (pairs.map (fun p => (p.1.rgb.2.2 : ℚ) * p.2)).sum
      let brT := (pairs.map (fun p => p.1.brightness * p.2)).sum
      some { rgb := (clampSpec (rnd rT), clampSpec (rnd gT), clampSpec (rnd bT)),
             brightness := ((clampSpec (rnd brT) : Int) : ℚ) }
  else none

/-- The Color Mixer exactly as the claim words it: round half up, clamp to
`[0, 255]`. -/
def mixSpecClaim : List ColorInfo → Option (List ℚ) → Option ColorInfo :=
  mixSpec roundHalfUp

/-- The Color Mixer as amended: Python rounding (half to even), clamp to
`[0, 255]`. -/
def mixSpecAmended : List ColorInfo → Option (List ℚ) → Option ColorInfo :=
  mixSpec pyRound

/-- The multiplexer-visible state of one `_NotificationAnimation`
(`src/light.py`): its priority, whether `is_running()` holds (set by `run()`,
cleared by `stop()`), and its currently published color. -/
structure Anim where
  priority : Int
  running : Bool
  color : ColorInfo
deriving DecidableEq, Repr

/-- The per-light state that `NotificationLightEntity._update_light_color`
reads and writes: `self._sequences` (insertion-ordered dict, kept sorted by
descending priority by the worker loop), the keys of
`self._active_animations` in insertion order (the values alias the `Anim`
records of `sequences`), and `self._last_set_color`. -/
structure LightState where
  sequences : List (String × Anim)
  active : List String
  last_set_color : Option ColorInfo
deriving DecidableEq, Repr

/-- Update the `running` flag of the animation stored under `id`
(`run()` / `stop()` act on the object aliased by both dicts). -/
def setRunning : List (String × Anim) → String → Bool → List (String × Anim)
  | [], _, _ => []
  | (k, a) :: t, id, b =>
    if k = id then (k, { a with running := b }) :: t else (k, a) :: setRunning t id b

/-- `self._sequences` after the first half of `_update_light_color`: if the
first (highest-priority) entry is not yet in `_active_animations`, `run()` is
invoked on it. -/
def insSeqs (st : LightState) : List (String × Anim) :=
  match st.sequences with
  | [] => st.sequences
  | (id0, _) :: _ => if id0 ∈ st.active then st.sequences else setRunning st.sequences id0 true

/-- The `_active_animations` keys after the first half of
`_update_light_color`: the first `sequences` entry is inserted when absent. -/
def insActive (st : LightState) : List String :=
  match st.sequences with
  | [] => st.active
  | (id0, _) :: _ => if id0 ∈ st.active then st.active else st.active ++ [id0]

/-- Whether an active entry survives the `remove_list` comprehension of
`_update_light_color`: it is kept iff its id is still in `self._sequences`
and its priority is not below the first entry's priority. -/
def keepB (st : LightState) (id : String) : Bool :=
  match st.sequences with
  | [] => true
  | (_, a0) :: _ =>
    match dget (insSeqs st) id with
    | none => false
    | some a => decide (a0.priority ≤ a.priority)

/-- The `_active_animations` keys remaining after the removal loop. -/
def keptIds (st : LightState) : List String := (insActive st).filter (keepB st)

/-- The `_active_animations` keys stopped and removed by the removal loop. -/
def removedIds (st : LightState) : List String :=
  (insActive st).filter (fun id => ! keepB st id)

/-- `self._sequences` after the removal loop has called `stop()` on every
removed animation. -/
def seqsFinal (st : LightState) : List (String × Anim) :=
  (removedIds st).foldl (fun s id => setRunning s id false) (insSeqs st)

/-- The colors handed to `mix_colors`: the published color of each remaining
active animation, in insertion order. -/
def colorsOf (st : LightState) : List ColorInfo :=
  (keptIds st).filterMap (fun id => (dget (seqsFinal st) id).map Anim.color)

/-- The combined color `_update_light_color` computes. -/
def mixedOf (st : LightState) : Option ColorInfo := mix_colors (colorsOf st) none

/-- `NotificationLightEntity._update_light_color` (`src/light.py` lines
494-536): run the top-priority sequence if not yet active, stop and drop
active animations that are gone or outranked, mix the remaining colors, and
push the mixed color to the wrapped light iff it differs from
`self._last_set_color` (updating `self._last_set_color` when pushed).
Returns the new state and `some pushedColor` when the output sink was
invoked; the outer `none` models an escaping exception (only possible through
`mix_colors`). -/
def updateLightColor (st : LightState) : Option (LightState × Option ColorInfo) :=
  match st.sequences with
  | [] => some (st, none)
  | _ :: _ =>
    match mixedOf st with
    | none => none
    | some mixed =>
      if some mixed ≠ st.last_set_color then
        some ({ sequences := seqsFinal st, active := keptIds st, last_set_color := some mixed },
              some mixed)
      else
        some ({ sequences := seqsFinal st, active := keptIds st,
                last_set_color := st.last_set_color },
              none)

/-- Outcome of one `await self._work_loop()` call inside
`NotificationLightEntity._worker_func`: normal return, an
`asyncio.CancelledError`, or any other exception. -/
inductive IterResult where
  | iterOk
  | cancelled
  | errRaised
deriving DecidableEq, Repr

/-- `NotificationLightEntity._worker_func` (`src/light.py` lines 471-478)
driven by a stream of per-iteration outcomes: `CancelledError` breaks out of
the `while True` loop, any other exception is logged and the loop continues.
Returns `some n` when the loop exits cleanly after `n` iterations, `none`
when the supplied outcomes are exhausted with the loop still running. -/
def workerFunc : List IterResult → Option ℕ
  | [] => none
  | .cancelled :: _ => some 1
  | .iterOk :: t => (workerFunc t).map (· + 1)
  | .errRaised :: t => (workerFunc t).map (· + 1)

/-- The observable effect of pushing a color at the wrapped light: a
`light.turn_off` service call, a `light.turn_on` service call (either with
the rgb payload, or converted to HS plus brightness when the wrapped bulb
does not support the RGB color mode — the hsv conversion itself is
abstracted), or no service call at all. -/
inductive SinkEffect where
  | svcTurnOff
  | svcTurnOnRgb (rgb : Int × Int × Int)
  | svcTurnOnHs (fromRgb : Int × Int × Int)
  | noCall
deriving DecidableEq, Repr

/-- `NotificationLightEntity._wrapped_light_turn_off` (`src/light.py` lines
705-713): no service call before the wrapped light is initialized. -/
def wrappedLightTurnOff (wrappedInit : Bool) : SinkEffect :=
  if wrappedInit then .svcTurnOff else .noCall

/-- `NotificationLightEntity._wrapped_light_turn_on` (`src/light.py` lines
672-703) as invoked from `_update_light_color`, whose kwargs are exactly
`{rgb_color: rgb}`: an rgb equal to `OFF_RGB` is redirected to
`_wrapped_light_turn_off`; otherwise nothing is called before
initialization, and the turn_on service is called (converting to HS plus
brightness when the bulb lacks the RGB color mode). -/
def wrappedLightTurnOn (wrappedInit : Bool) (supportsRgbMode : Bool)
    (rgb : Int × Int × Int) : SinkEffect :=
  if rgb = OFF_RGB then wrappedLightTurnOff wrappedInit
  else if wrappedInit then
    if supportsRgbMode then .svcTurnOnRgb rgb else .svcTurnOnHs rgb
  else .noCall

/-- Whether a sink effect is an invocation of the turn_on service path. -/
def isTurnOnCall : SinkEffect → Bool
  | .svcTurnOnRgb _ => true
  | .svcTurnOnHs _ => true
  | _ => false

/-- Steps that touch neither `next_idx` nor the loop-frame dict: `SetColor`
and `Delay`. -/
def simpleStep : Step → Bool
  | .setColor _ => true
  | .delay _ => true
  | .openLoop _ => false
  | .closeLoop _ _ => false

/-- The workspace color after executing a list of steps in order (only
`SetColor` steps change it). -/
def foldColor (x : ColorInfo) : List Step → ColorInfo
  | [] => x
  | .setColor c :: t => foldColor c t
  | .openLoop _ :: t => foldColor x t
  | .closeLoop _ _ :: t => foldColor x t
  | .delay _ :: t => foldColor x t

/-- A compiled single-loop program: `OpenLoop lid`, a simple body,
`CloseLoop lid R`, then the rest of the program. -/
def loopProg (lid : ℕ) (R : Int) (body rest : List Step) : List Step :=
  Step.openLoop lid :: body ++ Step.closeLoop lid R :: rest

/-- No two `CloseLoop` steps of a program disagree about a loop id's repeat
count (compiled programs close each loop id exactly once). -/
def uniqueClose (steps : List Step) : Prop :=
  ∀ id r r', Step.closeLoop id r ∈ steps → Step.closeLoop id r' ∈ steps → r = r'

/-- The C7 invariant: no loop frame of the workspace has outlived a
non-negative repeat budget of its loop's `CloseLoop` step. -/
def framesWithinBudget (steps : List Step) (w : Workspace) : Prop :=
  ∀ id info, dget w.data id = some info →
    ∀ r, Step.closeLoop id r ∈ steps → r < 0 ∨ (info.loop_cnt : Int) ≤ r

/-- The loop-bookkeeping invariant `create_from_pattern` maintains while
folding over the pattern. -/
def compileInv (st : CompileSt) : Prop :=
  (∀ id r, Step.closeLoop id r ∈ st.steps → id ∉ st.loopStack) ∧
  (∀ id ∈ st.loopStack, id < st.nextLoopId) ∧
  st.loopStack.Nodup ∧
  (∀ id r, Step.closeLoop id r ∈ st.steps → id < st.nextLoopId) ∧
  uniqueClose st.steps

/-- The compiled program of the pattern `["[", A, "],2"]`, used by the C7
witness. -/
def c7Steps : List Step :=
  [Step.openLoop 1, Step.setColor { rgb := (10, 20, 30) }, Step.closeLoop 1 2]

/-- Fresh workspace of the C7 witness program. -/
def c7w0 : Workspace :=
  { next_idx := 0, cur_loop := 0, data := [], color := { rgb := (10, 20, 30) } }

/-- C7 witness workspace after executing the `OpenLoop` step. -/
def c7w1 : Workspace :=
  { next_idx := 1, cur_loop := 0, data := [(1, { open_idx := 0, loop_cnt := 0 })],
    color := { rgb := (10, 20, 30) } }

/-- C7 witness workspace after also executing the `SetColor` step. -/
def c7w2 : Workspace :=
  { next_idx := 2, cur_loop := 0, data := [(1, { open_idx := 0, loop_cnt := 0 })],
    color := { rgb := (10, 20, 30) } }

/-- C7 witness workspace after also executing the `CloseLoop` step (first
iteration finished, jumped back to the `OpenLoop`). -/
def c7w3 : Workspace :=
  { next_idx := 0, cur_loop := 0, data := [(1, { open_idx := 0, loop_cnt := 1 })],
    color := { rgb := (10, 20, 30) } }

/-- The `[10, 5, 10]` priority state of claim C1: three notifications, the
two priority-10 entries first (the dict is sorted by descending priority),
nothing visible yet. -/
def stTied : LightState :=
  { sequences :=
      [("n1", { priority := 10, running := false, color := { rgb := (255, 0, 0) } }),
       ("n3", { priority := 10, running := false, color := { rgb := (0, 0, 255) } }),
       ("n2", { priority := 5, running := false, color := { rgb := (0, 255, 0) } })],
    active := [], last_set_color := none }

/-- The one-notification state of the C6 witness. -/
def stSingle : LightState :=
  { sequences := [("n1", { priority := 5, running := false, color := { rgb := (255, 0, 0) } })],
    active := [], last_set_color := none }

section DictLemmas

variable {κ β : Type} [DecidableEq κ]

theorem dget_dset_self (l : List (κ × β)) (k : κ) (v : β) : dget (dset l k v) k = some v := by
  induction l with
  | nil => simp [dget, dset]
  | cons p t ih =>
    obtain ⟨a, b⟩ := p
    by_cases h : a = k
    · subst h
      simp [dget, dset]
    · simp [dget, dset, h, ih]

theorem dget_dset_ne (l : List (κ × β)) (k k' : κ) (v : β) (h : k' ≠ k) :
    dget (dset l k v) k' = dget l k' := by
  have hkk : ¬ (k = k') := fun hh => h hh.symm
  induction l with
  | nil => simp [dget, dset, hkk]
  | cons p t ih =>
    obtain ⟨a, b⟩ := p
    by_cases hp : a = k
    · subst hp
      simp [dget, dset, hkk]
    · simp [dget, dset, hp, ih]

theorem dget_dpop_ne (l : List (κ × β)) (k k' : κ) (h : k' ≠ k) :
    dget (dpop l k) k' = dget l k' := by
  have hkk : ¬ (k = k') := fun hh => h hh.symm
  induction l with
  | nil => simp [dpop]
  | cons p t ih =>
    obtain ⟨a, b⟩ := p
    by_cases hp : a = k
    · subst hp
      simp [dget, dpop, hkk]
    · simp [dget, dpop, hp, ih]

theorem dget_none_iff (l : List (κ × β)) (k : κ) :
    dget l k = none ↔ k ∉ l.map Prod.fst := by
  induction l with
  | nil => simp [dget]
  | cons p t ih =>
    obtain ⟨a, b⟩ := p
    by_cases hp : a = k
    · subst hp
      simp [dget]
    · have hka : ¬ (k = a) := fun hh => hp hh.symm
      simp [dget, hp, hka, ih]

theorem dget_mem (l : List (κ × β)) (k : κ) (v : β) (h : dget l k = some v) : (k, v) ∈ l := by
  induction l with
  | nil => simp [dget] at h
  | cons p t ih =>
    obtain ⟨a, b⟩ := p
    by_cases hp : a = k
    · subst hp
      simp [dget] at h
      subst h
      exact List.mem_cons_self _ _
    · simp [dget, hp] at h
      exact List.mem_cons_of_mem _ (ih h)

theorem keys_dset (l : List (κ × β)) (k : κ) (v : β) :
    (dset l k v).map Prod.fst =
      if k ∈ l.map Prod.fst then l.map Prod.fst else l.map Prod.fst ++ [k] := by
  induction l with
  | nil => simp [dset]
  | cons p t ih =>
    obtain ⟨a, b⟩ := p
    by_cases hp : a = k
    · subst hp
      simp [dset]
    · have hka : ¬ (k = a) := fun hh => hp hh.symm
      by_cases hk : k ∈ t.map Prod.fst <;>
        simp [dset, hp, hka, hk, ih]

theorem keys_dpop_sublist (l : List (κ × β)) (k : κ) :
    List.Sublist ((dpop l k).map Prod.fst) (l.map Prod.fst) := by
  induction l with
  | nil => simp [dpop]
  | cons p t ih =>
    obtain ⟨a, b⟩ := p
    by_cases hp : a = k
    · subst hp
      simp only [dpop, if_pos rfl, List.map_cons]
      exact List.Sublist.cons _ (List.Sublist.refl _)
    · simp only [dpop, hp, ite_false, List.map_cons]
      exact List.Sublist.cons₂ _ ih

theorem dget_dpop_self (l : List (κ × β)) (k : κ) (hnd : (l.map Prod.fst).Nodup) :
    dget (dpop l k) k = none := by
  induction l with
  | nil => simp [dget, dpop]
  | cons p t ih =>
    obtain ⟨a, b⟩ := p
    simp only [List.map_cons, List.nodup_cons] at hnd
    by_cases hp : a = k
    · subst hp
      simp only [dpop, if_pos rfl]
      exact (dget_none_iff t a).mpr hnd.1
    · simp only [dpop, hp, ite_false, dget, if_neg hp]
      exact ih hnd.2

theorem keys_dset_nodup (l : List (κ × β)) (k : κ) (v : β) (hnd : (l.map Prod.fst).Nodup) :
    ((dset l k v).map Prod.fst).Nodup := by
  rw [keys_dset]
  by_cases hk : k ∈ l.map Prod.fst
  · simpa [hk] using hnd
  · simp only [hk, ite_false]
    refine List.Nodup.append hnd (List.nodup_singleton k) ?_
    intro x hx hx'
    simp only [List.mem_singleton] at hx'
    subst hx'
    exact hk hx

theorem keys_dpop_nodup (l : List (κ × β)) (k : κ) (hnd : (l.map Prod.fst).Nodup) :
    ((dpop l k).map Prod.fst).Nodup :=
  (keys_dpop_sublist l k).nodup hnd

end DictLemmas

/-- Claim C8: compiling an empty input pattern yields a `LightSequence` with
zero steps whose workspace starts at the off color: rgb `(0,0,0)` with
brightness `0`. -/
theorem create_from_pattern_empty :
    create_from_pattern [] =
      .ok { steps := [],
            workspace := { next_idx := 0, cur_loop := 0, data := [],
                           color := { rgb := (0, 0, 0), brightness := 0 } } } := by
  rfl

/-- Claim C2 (code bug): a free-text item whose JSON parse fails is NOT
skipped.  The `except` branch of `create_from_pattern` only logs and then
falls through to `item_dict.get(...)`: when the failing item is the first
free-text item the local `item_dict` was never assigned and an
`UnboundLocalError` escapes the compiler; when an earlier free-text item
parsed, its stale dict is silently reused and the failing item still emits a
`SetColor` step (here a duplicate of the previous item's color). -/
theorem create_from_pattern_parse_failure_not_skipped :
    create_from_pattern [.freeText none] = .error .unboundItemDict ∧
    create_from_pattern [.freeText (some { rgb := some (1, 2, 3) }), .freeText none] =
      .ok { steps := [.setColor { rgb := (1, 2, 3) }, .setColor { rgb := (1, 2, 3) }],
            workspace := { color := { rgb := (1, 2, 3) } } } := by
  exact ⟨rfl, rfl⟩

/-- Claim C3, counterexample: executing `CloseLoop(1, 2)` on a workspace whose
loop frame has `openIndex = 0` sets `next_idx` to `0` — the index of the
`OpenLoop` step itself — not to `openIndex + 1` as the claim states. -/
theorem closeLoop_next_idx_not_open_succ :
    executeStep (.closeLoop 1 2) 2
        { next_idx := 3, data := [(1, { open_idx := 0, loop_cnt := 0 })], color := {} } =
      .ok { next_idx := 0, data := [(1, { open_idx := 0, loop_cnt := 1 })], color := {} } ∧
    ¬ (∀ w' : Workspace,
        executeStep (.closeLoop 1 2) 2
            { next_idx := 3, data := [(1, { open_idx := 0, loop_cnt := 0 })], color := {} } =
          .ok w' → w'.next_idx = 0 + 1) := by
  refine ⟨rfl, fun hall => ?_⟩
  have h :=
    hall { next_idx := 0, data := [(1, { open_idx := 0, loop_cnt := 1 })], color := {} } rfl
  simp at h

/-- Claim C3 as amended: when the repeat budget is not exhausted, `CloseLoop`
sets `next_idx` to `openIndex` itself (the stored `open_idx` of the frame,
which is the `OpenLoop` step's index), with the incremented iteration count
stored back; re-executing the `OpenLoop` step with its frame still present is
a no-op, after which the loop body runs. -/
theorem closeLoop_jumps_to_openLoop_index :
    (∀ (w : Workspace) (id : ℕ) (reps : Int) (info : LoopInfo) (i : ℕ),
      dget w.data id = some info →
      (reps < 0 ∨ ((info.loop_cnt + 1 : ℕ) : Int) ≤ reps) →
      executeStep (.closeLoop id reps) i w =
        .ok { w with next_idx := info.open_idx,
                     data := dset w.data id { open_idx := info.open_idx,
                                              loop_cnt := info.loop_cnt + 1 } }) ∧
    (∀ (w : Workspace) (id : ℕ) (j : ℕ) (info : LoopInfo),
      dget w.data id = some info → executeStep (.openLoop id) j w = .ok w) := by
  constructor
  · intro w id reps info i hget hcond
    simp only [executeStep, hget]
    rw [if_pos hcond]
  · intro w id j info hget
    simp [executeStep, hget]

/-- Witness for the amended C3 at the concrete program `["[", A, "],2"]`:
the first `CloseLoop` execution jumps back to index 0, and re-executing the
`OpenLoop` there changes nothing. -/
theorem closeLoop_jumps_to_openLoop_index_witness :
    executeStep (.closeLoop 1 2) 2
        { next_idx := 3, data := [(1, { open_idx := 0, loop_cnt := 0 })], color := {} } =
      .ok { next_idx := 0, data := [(1, { open_idx := 0, loop_cnt := 1 })], color := {} } ∧
    executeStep (.openLoop 1) 0
        { next_idx := 0, data := [(1, { open_idx := 0, loop_cnt := 1 })], color := {} } =
      .ok { next_idx := 0, data := [(1, { open_idx := 0, loop_cnt := 1 })], color := {} } := by
  constructor
  · exact closeLoop_jumps_to_openLoop_index.1
      { next_idx := 3, data := [(1, { open_idx := 0, loop_cnt := 0 })], color := {} }
      1 2 { open_idx := 0, loop_cnt := 0 } 2 rfl (by decide)
  · exact closeLoop_jumps_to_openLoop_index.2
      { next_idx := 0, data := [(1, { open_idx := 0, loop_cnt := 1 })], color := {} }
      1 0 { open_idx := 0, loop_cnt := 1 } rfl

/-- Claim C9: the outer worker loop survives any number of non-cancellation
exceptions — it keeps iterating past every `errRaised` outcome and exits
cleanly exactly at the first `cancelled` outcome. -/
theorem workerFunc_survives_errors_until_cancelled (pre post : List IterResult)
    (h : ∀ x ∈ pre, x ≠ .cancelled) :
    workerFunc (pre ++ .cancelled :: post) = some (pre.length + 1) ∧
    workerFunc pre = none := by
  induction pre with
  | nil => exact ⟨rfl, rfl⟩
  | cons x t ih =>
    have hx : x ≠ .cancelled := h x (List.mem_cons_self x t)
    have ht : ∀ y ∈ t, y ≠ .cancelled := fun y hy => h y (List.mem_cons_of_mem x hy)
    have iht := ih ht
    cases x with
    | cancelled => exact absurd rfl hx
    | iterOk => simp [workerFunc, iht.1, iht.2]
    | errRaised => simp [workerFunc, iht.1, iht.2]

/-- Witness for C9: three iterations (two of them raising) proceed, and the
fourth, a cancellation, terminates the loop cleanly. -/
theorem workerFunc_survives_errors_until_cancelled_witness :
    workerFunc [.errRaised, .iterOk, .errRaised, .cancelled, .iterOk] = some 4 ∧
    workerFunc [.errRaised, .iterOk, .errRaised] = none := by
  simpa using
    workerFunc_survives_errors_until_cancelled [.errRaised, .iterOk, .errRaised] [.iterOk]
      (by decide)

/-- Claim C10, counterexample: when the wrapped light has not finished
initialization, pushing rgb `(0,0,0)` produces no service call at all — in
particular the turn_off service is not invoked. -/
theorem wrappedLightTurnOn_uninitialized_no_turn_off :
    wrappedLightTurnOn false true (0, 0, 0) = .noCall ∧
    SinkEffect.noCall ≠ SinkEffect.svcTurnOff := by
  exact ⟨rfl, by decide⟩

/-- Claim C10 as amended: a pushed rgb of `(0,0,0)` never reaches the turn_on
service path and — provided the wrapped light is initialized — is dispatched
to the turn_off service; the turn_on service path is only ever invoked with
an rgb different from `(0,0,0)`. -/
theorem wrappedLightTurnOn_off_rgb_dispatch (init supports : Bool) (rgb : Int × Int × Int) :
    (rgb = (0, 0, 0) →
      isTurnOnCall (wrappedLightTurnOn init supports rgb) = false ∧
      (init = true → wrappedLightTurnOn init supports rgb = .svcTurnOff)) ∧
    (isTurnOnCall (wrappedLightTurnOn init supports rgb) = true → rgb ≠ (0, 0, 0)) := by
  constructor
  · intro h
    subst h
    cases init <;> cases supports <;>
      simp [wrappedLightTurnOn, wrappedLightTurnOff, isTurnOnCall, OFF_RGB]
  · intro hcall hrgb
    subst hrgb
    revert hcall
    cases init <;> cases supports <;>
      simp [wrappedLightTurnOn, wrappedLightTurnOff, isTurnOnCall, OFF_RGB]

/-- Witness for the amended C10: with an initialized wrapped light, rgb
`(0,0,0)` goes to the turn_off service and is not a turn_on call. -/
theorem wrappedLightTurnOn_off_rgb_dispatch_witness :
    isTurnOnCall (wrappedLightTurnOn true true (0, 0, 0)) = false ∧
    wrappedLightTurnOn true true (0, 0, 0) = .svcTurnOff := by
  have h := wrappedLightTurnOn_off_rgb_dispatch true true (0, 0, 0)
  exact ⟨(h.1 rfl).1, (h.1 rfl).2 rfl⟩

theorem foldColor_const_or_id (b : List Step) :
    (∀ x, foldColor x b = x) ∨ (∀ x y, foldColor x b = foldColor y b) := by
  induction b with
  | nil => exact Or.inl fun x => rfl
  | cons s t ih =>
    cases s with
    | setColor c => exact Or.inr fun x y => rfl
    | openLoop id =>
      rcases ih with h | h
      · exact Or.inl fun x => h x
      · exact Or.inr fun x y => h x y
    | closeLoop id r =>
      rcases ih with h | h
      · exact Or.inl fun x => h x
      · exact Or.inr fun x y => h x y
    | delay d =>
      rcases ih with h | h
      · exact Or.inl fun x => h x
      · exact Or.inr fun x y => h x y

theorem foldColor_foldColor (x : ColorInfo) (b : List Step) :
    foldColor (foldColor x b) b = foldColor x b := by
  rcases foldColor_const_or_id b with h | h
  · exact h (foldColor x b)
  · exact h (foldColor x b) x

theorem runTrace_stuck (steps : List Step) (n : ℕ) (w : Workspace)
    (h : ¬ w.next_idx < steps.length) : runTrace steps n w = .ok ([], w) := by
  cases n with
  | zero => rfl
  | succ m => simp [runTrace, h]

theorem runTrace_one (steps : List Step) (w : Workspace) (hlt : w.next_idx < steps.length)
    (w' : Workspace) (d : Bool) (hrun : runNextStep steps w = .ok (w', d)) :
    runTrace steps 1 w = .ok ([steps.get ⟨w.next_idx, hlt⟩], w') := by
  simp [runTrace, dif_pos hlt, hrun]

theorem runTrace_append_of (steps : List Step) (m n : ℕ) (w w₁ w₂ : Workspace)
    (tr₁ tr₂ : List Step) (h₁ : runTrace steps m w = .ok (tr₁, w₁))
    (h₂ : runTrace steps n w₁ = .ok (tr₂, w₂)) :
    runTrace steps (m + n) w = .ok (tr₁ ++ tr₂, w₂) := by
  induction m generalizing w tr₁ with
  | zero =>
    simp only [runTrace, Except.ok.injEq, Prod.mk.injEq] at h₁
    obtain ⟨h₁l, h₁r⟩ := h₁
    subst h₁l
    subst h₁r
    simpa using h₂
  | succ k ih =>
    by_cases h : w.next_idx < steps.length
    · simp only [runTrace, dif_pos h] at h₁
      cases hstep : runNextStep steps w with
      | error e => rw [hstep] at h₁; simp at h₁
      | ok p =>
        obtain ⟨w', d⟩ := p
        rw [hstep] at h₁
        dsimp only at h₁
        cases htr : runTrace steps k w' with
        | error e => rw [htr] at h₁; simp at h₁
        | ok q =>
          obtain ⟨tr', wf⟩ := q
          rw [htr] at h₁
          simp only [Except.ok.injEq, Prod.mk.injEq] at h₁
          obtain ⟨htr₁, hwf⟩ := h₁
          subst htr₁
          subst hwf
          have harith : k + 1 + n = (k + n) + 1 := by omega
          rw [harith]
          simp only [runTrace, dif_pos h, hstep]
          rw [ih w' tr' htr]
          simp
    · rw [runTrace_stuck steps (k + 1) w h] at h₁
      simp only [Except.ok.injEq, Prod.mk.injEq] at h₁
      obtain ⟨htr₁, hw₁⟩ := h₁
      subst htr₁
      subst hw₁
      rw [runTrace_stuck steps n w h] at h₂
      simp only [Except.ok.injEq, Prod.mk.injEq] at h₂
      obtain ⟨htr₂, hw₂⟩ := h₂
      subst htr₂
      subst hw₂
      simpa using runTrace_stuck steps (k + 1 + n) w h

theorem runTrace_simple_seg (steps : List Step) (t r : List Step) (w : Workspace)
    (hdrop : steps.drop w.next_idx = t ++ r) (hsimp : ∀ s ∈ t, simpleStep s = true) :
    runTrace steps t.length w =
      .ok (t, { w with next_idx := w.next_idx + t.length, color := foldColor w.color t }) := by
  induction t generalizing w with
  | nil =>
    cases w
    simp [runTrace, foldColor]
  | cons s t' ih =>
    have hget : steps[w.next_idx]? = some s := by
      have h0 := List.getElem?_drop steps w.next_idx 0
      rw [hdrop] at h0
      simpa using h0.symm
    have hlt : w.next_idx < steps.length := by
      by_contra hnot
      rw [List.drop_eq_nil_of_le (le_of_not_lt hnot)] at hdrop
      simp at hdrop
    have hgetE : steps[w.next_idx] = s := by
      have h1 := List.getElem?_eq_getElem hlt
      rw [hget] at h1
      exact (Option.some.inj h1).symm
    have hgetv : steps.get ⟨w.next_idx, hlt⟩ = s := by
      rw [List.get_eq_getElem]
      exact hgetE
    have hdrop' : steps.drop (w.next_idx + 1) = t' ++ r := by
      have hdd := List.drop_drop 1 w.next_idx steps
      rw [hdrop] at hdd
      simpa using hdd.symm
    have hsimp' : ∀ x ∈ t', simpleStep x = true := fun x hx =>
      hsimp x (List.mem_cons_of_mem s hx)
    have hs : simpleStep s = true := hsimp s (List.mem_cons_self s t')
    cases s with
    | openLoop id => simp [simpleStep] at hs
    | closeLoop id rr => simp [simpleStep] at hs
    | setColor c =>
      have ihw := ih ({ w with next_idx := w.next_idx + 1, color := c }) hdrop' hsimp'
      simp only [List.length_cons, runTrace, dif_pos hlt]
      have hrun : runNextStep steps w =
          .ok ({ w with next_idx := w.next_idx + 1, color := c },
               decide (steps.length ≤ w.next_idx + 1)) := by
        simp only [runNextStep, dif_pos hlt, hgetv, executeStep]
      rw [hrun]
      dsimp only
      rw [ihw]
      have harith : w.next_idx + 1 + t'.length = w.next_idx + (t'.length + 1) := by omega
      simp [hgetv, hgetE, harith, foldColor]
    | delay secs =>
      have ihw := ih ({ w with next_idx := w.next_idx + 1 }) hdrop' hsimp'
      simp only [List.length_cons, runTrace, dif_pos hlt]
      have hrun : runNextStep steps w =
          .ok ({ w with next_idx := w.next_idx + 1 },
               decide (steps.length ≤ w.next_idx + 1)) := by
        simp only [runNextStep, dif_pos hlt, hgetv, executeStep]
      rw [hrun]
      dsimp only
      rw [ihw]
      have harith : w.next_idx + 1 + t'.length = w.next_idx + (t'.length + 1) := by omega
      simp [hgetv, hgetE, harith, foldColor]

theorem loopProg_length (lid : ℕ) (R : Int) (body rest : List Step) :
    (loopProg lid R body rest).length = body.length + 2 + rest.length := by
  simp [loopProg]
  omega

theorem runTrace_body_close (lid : ℕ) (R : ℕ) (body rest : List Step)
    (hsimp : ∀ s ∈ body, simpleStep s = true) (c : ℕ) (w : Workspace)
    (hidx : w.next_idx = 1) (hdata : w.data = [(lid, { open_idx := 0, loop_cnt := c })]) :
    runTrace (loopProg lid (R : Int) body rest) (body.length + 1) w =
      .ok (body ++ [Step.closeLoop lid (R : Int)],
        if c + 1 ≤ R then
          { next_idx := 0, cur_loop := w.cur_loop,
            data := [(lid, { open_idx := 0, loop_cnt := c + 1 })],
            color := foldColor w.color body }
        else
          { next_idx := body.length + 2, cur_loop := w.cur_loop, data := [],
            color := foldColor w.color body }) := by
  have hdropw : (loopProg lid (R : Int) body rest).drop w.next_idx =
      body ++ (Step.closeLoop lid (R : Int) :: rest) := by
    rw [hidx]
    simp [loopProg]
  have hseg := runTrace_simple_seg (loopProg lid (R : Int) body rest) body
    (Step.closeLoop lid (R : Int) :: rest) w hdropw hsimp
  have hlen := loopProg_length lid (R : Int) body rest
  have hlt₂ : w.next_idx + body.length < (loopProg lid (R : Int) body rest).length := by
    omega
  have hsteps' : loopProg lid (R : Int) body rest =
      (Step.openLoop lid :: body) ++ (Step.closeLoop lid (R : Int) :: rest) := by
    simp [loopProg]
  have hget₂ : (loopProg lid (R : Int) body rest)[w.next_idx + body.length]? =
      some (Step.closeLoop lid (R : Int)) := by
    rw [hsteps']
    have hidx₂ : w.next_idx + body.length = (Step.openLoop lid :: body).length := by
      simp [hidx]
      omega
    rw [hidx₂, List.getElem?_append_right (Nat.le_refl _)]
    simp
  have hget₂E : (loopProg lid (R : Int) body rest)[w.next_idx + body.length] =
      Step.closeLoop lid (R : Int) := by
    have h1 := List.getElem?_eq_getElem hlt₂
    rw [hget₂] at h1
    exact (Option.some.inj h1).symm
  have hget₂v : (loopProg lid (R : Int) body rest).get ⟨w.next_idx + body.length, hlt₂⟩ =
      Step.closeLoop lid (R : Int) := by
    rw [List.get_eq_getElem]
    exact hget₂E
  by_cases hc : c + 1 ≤ R
  · have hcond : (R : Int) < 0 ∨ ((c + 1 : ℕ) : Int) ≤ (R : Int) := Or.inr (by exact_mod_cast hc)
    have hrun₂ : runNextStep (loopProg lid (R : Int) body rest)
        { next_idx := w.next_idx + body.length, cur_loop := w.cur_loop, data := w.data,
          color := foldColor w.color body } =
        .ok ({ next_idx := 0, cur_loop := w.cur_loop,
               data := [(lid, { open_idx := 0, loop_cnt := c + 1 })],
               color := foldColor w.color body }, false) := by
      simp only [runNextStep, dif_pos hlt₂, hget₂v, executeStep, hdata, dget]
      simp only [if_true]
      rw [if_pos hcond]
      simp [dset, hlen, decide_eq_false_iff_not]
    have hone := runTrace_one (loopProg lid (R : Int) body rest)
      { next_idx := w.next_idx + body.length, cur_loop := w.cur_loop, data := w.data,
        color := foldColor w.color body } hlt₂ _ _ hrun₂
    have hcomb := runTrace_append_of (loopProg lid (R : Int) body rest) body.length 1
      w _ _ body [(loopProg lid (R : Int) body rest).get ⟨w.next_idx + body.length, hlt₂⟩]
      hseg hone
    rw [hget₂v] at hcomb
    rw [if_pos hc]
    exact hcomb
  · have hcond : ¬ ((R : Int) < 0 ∨ ((c + 1 : ℕ) : Int) ≤ (R : Int)) := by omega
    have hrun₂ : runNextStep (loopProg lid (R : Int) body rest)
        { next_idx := w.next_idx + body.length, cur_loop := w.cur_loop, data := w.data,
          color := foldColor w.color body } =
        .ok ({ next_idx := w.next_idx + body.length + 1, cur_loop := w.cur_loop,
               data := [],
               color := foldColor w.color body },
             decide ((loopProg lid (R : Int) body rest).length ≤ w.next_idx + body.length + 1)) := by
      simp only [runNextStep, dif_pos hlt₂, hget₂v, executeStep, hdata, dget]
      simp only [if_true]
      rw [if_neg hcond]
      simp [dpop]
    have hone := runTrace_one (loopProg lid (R : Int) body rest)
      { next_idx := w.next_idx + body.length, cur_loop := w.cur_loop, data := w.data,
        color := foldColor w.color body } hlt₂ _ _ hrun₂
    have hcomb := runTrace_append_of (loopProg lid (R : Int) body rest) body.length 1
      w _ _ body [(loopProg lid (R : Int) body rest).get ⟨w.next_idx + body.length, hlt₂⟩]
      hseg hone
    rw [hget₂v] at hcomb
    rw [if_neg hc]
    have harith : w.next_idx + body.length + 1 = body.length + 2 := by omega
    rw [harith] at hcomb
    exact hcomb

theorem runTrace_block_frame (lid : ℕ) (R : ℕ) (body rest : List Step)
    (hsimp : ∀ s ∈ body, simpleStep s = true) (c : ℕ) (w : Workspace)
    (hidx : w.next_idx = 0) (hdata : w.data = [(lid, { open_idx := 0, loop_cnt := c })]) :
    runTrace (loopProg lid (R : Int) body rest) (body.length + 2) w =
      .ok (Step.openLoop lid :: (body ++ [Step.closeLoop lid (R : Int)]),
        if c + 1 ≤ R then
          { next_idx := 0, cur_loop := w.cur_loop,
            data := [(lid, { open_idx := 0, loop_cnt := c + 1 })],
            color := foldColor w.color body }
        else
          { next_idx := body.length + 2, cur_loop := w.cur_loop, data := [],
            color := foldColor w.color body }) := by
  have hlen := loopProg_length lid (R : Int) body rest
  have hlt₀ : w.next_idx < (loopProg lid (R : Int) body rest).length := by omega
  have hget₀ : (loopProg lid (R : Int) body rest).get ⟨w.next_idx, hlt₀⟩ = .openLoop lid := by
    have h1 := List.getElem?_eq_getElem hlt₀
    have h0 : (loopProg lid (R : Int) body rest)[w.next_idx]? = some (Step.openLoop lid) := by
      rw [hidx]
      simp [loopProg]
    rw [h0] at h1
    rw [List.get_eq_getElem]
    exact (Option.some.inj h1).symm
  have hrun₀ : runNextStep (loopProg lid (R : Int) body rest) w =
      .ok ({ next_idx := w.next_idx + 1, cur_loop := w.cur_loop, data := w.data,
             color := w.color },
           decide ((loopProg lid (R : Int) body rest).length ≤ w.next_idx + 1)) := by
    simp only [runNextStep, dif_pos hlt₀, hget₀, executeStep, hdata, dget]
    simp only [if_true]
  have hone := runTrace_one (loopProg lid (R : Int) body rest) w hlt₀ _ _ hrun₀
  rw [hget₀] at hone
  have hbody := runTrace_body_close lid R body rest hsimp c
    { next_idx := w.next_idx + 1, cur_loop := w.cur_loop, data := w.data, color := w.color }
    (by simp [hidx]) hdata
  have hcomb := runTrace_append_of (loopProg lid (R : Int) body rest) 1 (body.length + 1)
    w _ _ [Step.openLoop lid] (body ++ [Step.closeLoop lid (R : Int)]) hone hbody
  have hfuel : 1 + (body.length + 1) = body.length + 2 := by omega
  rw [hfuel] at hcomb
  simpa using hcomb

theorem runTrace_block_fresh (lid : ℕ) (R : ℕ) (body rest : List Step)
    (hsimp : ∀ s ∈ body, simpleStep s = true) (w : Workspace)
    (hidx : w.next_idx = 0) (hdata : w.data = []) :
    runTrace (loopProg lid (R : Int) body rest) (body.length + 2) w =
      .ok (Step.openLoop lid :: (body ++ [Step.closeLoop lid (R : Int)]),
        if 1 ≤ R then
          { next_idx := 0, cur_loop := w.cur_loop,
            data := [(lid, { open_idx := 0, loop_cnt := 1 })],
            color := foldColor w.color body }
        else
          { next_idx := body.length + 2, cur_loop := w.cur_loop, data := [],
            color := foldColor w.color body }) := by
  have hlen := loopProg_length lid (R : Int) body rest
  have hlt₀ : w.next_idx < (loopProg lid (R : Int) body rest).length := by omega
  have hget₀ : (loopProg lid (R : Int) body rest).get ⟨w.next_idx, hlt₀⟩ = .openLoop lid := by
    have h1 := List.getElem?_eq_getElem hlt₀
    have h0 : (loopProg lid (R : Int) body rest)[w.next_idx]? = some (Step.openLoop lid) := by
      rw [hidx]
      simp [loopProg]
    rw [h0] at h1
    rw [List.get_eq_getElem]
    exact (Option.some.inj h1).symm
  have hrun₀ : runNextStep (loopProg lid (R : Int) body rest) w =
      .ok ({ next_idx := w.next_idx + 1, cur_loop := w.cur_loop,
             data := [(lid, { open_idx := w.next_idx, loop_cnt := 0 })],
             color := w.color },
           decide ((loopProg lid (R : Int) body rest).length ≤ w.next_idx + 1)) := by
    simp only [runNextStep, dif_pos hlt₀, hget₀, executeStep, hdata, dget, dset]
  have hone := runTrace_one (loopProg lid (R : Int) body rest) w hlt₀ _ _ hrun₀
  rw [hget₀] at hone
  have hbody := runTrace_body_close lid R body rest hsimp 0
    { next_idx := w.next_idx + 1, cur_loop := w.cur_loop,
      data := [(lid, { open_idx := w.next_idx, loop_cnt := 0 })], color := w.color }
    (by simp [hidx]) (by rw [hidx])
  have hcomb := runTrace_append_of (loopProg lid (R : Int) body rest) 1 (body.length + 1)
    w _ _ [Step.openLoop lid] (body ++ [Step.closeLoop lid (R : Int)]) hone hbody
  have hfuel : 1 + (body.length + 1) = body.length + 2 := by omega
  rw [hfuel] at hcomb
  simpa using hcomb

theorem runTrace_loop_iterate (lid : ℕ) (R : ℕ) (body rest : List Step)
    (hsimp : ∀ s ∈ body, simpleStep s = true) :
    ∀ (n c : ℕ) (w : Workspace), 1 ≤ n → c + n = R + 1 → w.next_idx = 0 →
      w.data = [(lid, { open_idx := 0, loop_cnt := c })] →
      runTrace (loopProg lid (R : Int) body rest) (n * (body.length + 2)) w =
        .ok ((List.replicate n
                (Step.openLoop lid :: (body ++ [Step.closeLoop lid (R : Int)]))).flatten,
          { next_idx := body.length + 2, cur_loop := w.cur_loop, data := [],
            color := foldColor w.color body }) := by
  intro n
  induction n with
  | zero => omega
  | succ k ih =>
    intro c w hn hc hidx hdata
    by_cases hk : 1 ≤ k
    · have hcle : c + 1 ≤ R := by omega
      have hblock := runTrace_block_frame lid R body rest hsimp c w hidx hdata
      rw [if_pos hcle] at hblock
      have hrec := ih (c + 1)
        { next_idx := 0, cur_loop := w.cur_loop,
          data := [(lid, { open_idx := 0, loop_cnt := c + 1 })],
          color := foldColor w.color body }
        hk (by omega) rfl rfl
      have hcomb := runTrace_append_of (loopProg lid (R : Int) body rest)
        (body.length + 2) (k * (body.length + 2)) w _ _
        (Step.openLoop lid :: (body ++ [Step.closeLoop lid (R : Int)]))
        ((List.replicate k
          (Step.openLoop lid :: (body ++ [Step.closeLoop lid (R : Int)]))).flatten)
        hblock hrec
      have hfuel : body.length + 2 + k * (body.length + 2) = (k + 1) * (body.length + 2) := by
        ring
      rw [hfuel] at hcomb
      rw [List.replicate_succ, List.flatten_cons]
      simpa [foldColor_foldColor] using hcomb
    · have hk0 : k = 0 := by omega
      subst hk0
      have hblock := runTrace_block_frame lid R body rest hsimp c w hidx hdata
      rw [if_neg (by omega)] at hblock
      simpa using hblock

/-- Claim C4: a compiled loop `OpenLoop lid :: body ++ CloseLoop lid R :: rest`
with a non-negative repeat count `R` and a body of simple (`SetColor`/`Delay`)
steps executes, starting from a fresh workspace, exactly `R + 1` repetitions
of `OpenLoop, body, CloseLoop` and nothing else within `(R+1)*(|body|+2)`
VM steps, ending with `next_idx` just past the `CloseLoop` (so each body step
ran exactly `R + 1` times before any step of `rest` runs). -/
theorem loop_body_executes_repeats_succ_times (lid : ℕ) (R : ℕ) (body rest : List Step)
    (x : ColorInfo) (hsimp : ∀ s ∈ body, simpleStep s = true) :
    runTrace (loopProg lid (R : Int) body rest) ((R + 1) * (body.length + 2))
        { next_idx := 0, cur_loop := 0, data := [], color := x } =
      .ok ((List.replicate (R + 1)
              (Step.openLoop lid :: (body ++ [Step.closeLoop lid (R : Int)]))).flatten,
        { next_idx := body.length + 2, cur_loop := 0, data := [],
          color := foldColor x body }) := by
  cases R with
  | zero =>
    have hblock := runTrace_block_fresh lid 0 body rest hsimp
      { next_idx := 0, cur_loop := 0, data := [], color := x } rfl rfl
    rw [if_neg (by omega)] at hblock
    simpa using hblock
  | succ r =>
    have hblock := runTrace_block_fresh lid (r + 1) body rest hsimp
      { next_idx := 0, cur_loop := 0, data := [], color := x } rfl rfl
    rw [if_pos (by omega)] at hblock
    have hrec := runTrace_loop_iterate lid (r + 1) body rest hsimp (r + 1) 1
      { next_idx := 0, cur_loop := 0,
        data := [(lid, { open_idx := 0, loop_cnt := 1 })], color := foldColor x body }
      (by omega) (by omega) rfl rfl
    have hcomb := runTrace_append_of (loopProg lid ((r + 1 : ℕ) : Int) body rest)
      (body.length + 2) ((r + 1) * (body.length + 2))
      { next_idx := 0, cur_loop := 0, data := [], color := x } _ _
      (Step.openLoop lid :: (body ++ [Step.closeLoop lid ((r + 1 : ℕ) : Int)]))
      ((List.replicate (r + 1)
        (Step.openLoop lid :: (body ++ [Step.closeLoop lid ((r + 1 : ℕ) : Int)]))).flatten)
      hblock hrec
    have hfuel : body.length + 2 + (r + 1) * (body.length + 2) =
        (r + 1 + 1) * (body.length + 2) := by ring
    rw [hfuel] at hcomb
    rw [List.replicate_succ, List.flatten_cons]
    simpa [foldColor_foldColor] using hcomb

/-- Witness for C4 at the spec's concrete pattern `["[", A, "],2", B]`: the
body `SetColor A` executes exactly three times (trace
`open, A, close, open, A, close, open, A, close`) before `SetColor B` can
run, and the final `next_idx` is 3, the index of `SetColor B`. -/
theorem loop_body_executes_repeats_succ_times_witness :
    runTrace
        (loopProg 1 (2 : Int) [Step.setColor { rgb := (255, 0, 0) }]
          [Step.setColor { rgb := (0, 255, 0) }]) 9
        { next_idx := 0, cur_loop := 0, data := [],
          color := { rgb := (0, 0, 0), brightness := 0 } } =
      .ok ([Step.openLoop 1, Step.setColor { rgb := (255, 0, 0) }, Step.closeLoop 1 2,
            Step.openLoop 1, Step.setColor { rgb := (255, 0, 0) }, Step.closeLoop 1 2,
            Step.openLoop 1, Step.setColor { rgb := (255, 0, 0) }, Step.closeLoop 1 2],
        { next_idx := 3, cur_loop := 0, data := [],
          color := { rgb := (255, 0, 0) } }) := by
  have h := loop_body_executes_repeats_succ_times 1 2 [Step.setColor { rgb := (255, 0, 0) }]
    [Step.setColor { rgb := (0, 255, 0) }] { rgb := (0, 0, 0), brightness := 0 }
    (by decide)
  exact h.trans (by rfl)

theorem executeStep_preserves_inv (steps : List Step) (s : Step) (i : ℕ)
    (w w' : Workspace) (hmem : s ∈ steps) (hWF : uniqueClose steps)
    (hnd : (w.data.map Prod.fst).Nodup) (hinv : framesWithinBudget steps w)
    (hexec : executeStep s i w = .ok w') :
    (w'.data.map Prod.fst).Nodup ∧ framesWithinBudget steps w' := by
  cases s with
  | setColor c =>
    simp only [executeStep, Except.ok.injEq] at hexec
    subst hexec
    exact ⟨hnd, hinv⟩
  | delay secs =>
    simp only [executeStep, Except.ok.injEq] at hexec
    subst hexec
    exact ⟨hnd, hinv⟩
  | openLoop id =>
    simp only [executeStep] at hexec
    cases hget : dget w.data id with
    | some info =>
      rw [hget] at hexec
      simp only [Except.ok.injEq] at hexec
      subst hexec
      exact ⟨hnd, hinv⟩
    | none =>
      rw [hget] at hexec
      simp only [Except.ok.injEq] at hexec
      subst hexec
      refine ⟨keys_dset_nodup _ _ _ hnd, ?_⟩
      intro id' info' hget' r hmemr
      by_cases hid : id' = id
      · rw [hid, dget_dset_self] at hget'
        have hcnt : info'.loop_cnt = 0 := by
          rw [← Option.some.inj hget']
        omega
      · rw [dget_dset_ne _ _ _ _ hid] at hget'
        exact hinv id' info' hget' r hmemr
  | closeLoop id reps =>
    simp only [executeStep] at hexec
    cases hget : dget w.data id with
    | none =>
      rw [hget] at hexec
      simp at hexec
    | some info =>
      rw [hget] at hexec
      dsimp only at hexec
      by_cases hcond : reps < 0 ∨ ((info.loop_cnt + 1 : ℕ) : Int) ≤ reps
      · rw [if_pos hcond] at hexec
        simp only [Except.ok.injEq] at hexec
        subst hexec
        refine ⟨keys_dset_nodup _ _ _ hnd, ?_⟩
        intro id' info' hget' r hmemr
        by_cases hid : id' = id
        · rw [hid, dget_dset_self] at hget'
          have hcnt : info'.loop_cnt = info.loop_cnt + 1 := by
            rw [← Option.some.inj hget']
          have hr : r = reps := hWF id r reps (hid ▸ hmemr) hmem
          subst hr
          omega
        · rw [dget_dset_ne _ _ _ _ hid] at hget'
          exact hinv id' info' hget' r hmemr
      · rw [if_neg hcond] at hexec
        simp only [Except.ok.injEq] at hexec
        subst hexec
        refine ⟨keys_dpop_nodup _ _ hnd, ?_⟩
        intro id' info' hget' r hmemr
        by_cases hid : id' = id
        · rw [hid, dget_dpop_self _ _ hnd] at hget'
          cases hget'
        · rw [dget_dpop_ne _ _ _ hid] at hget'
          exact hinv id' info' hget' r hmemr

theorem runNextStep_preserves_inv (steps : List Step) (w w' : Workspace) (d : Bool)
    (hWF : uniqueClose steps) (hnd : (w.data.map Prod.fst).Nodup)
    (hinv : framesWithinBudget steps w)
    (hrun : runNextStep steps w = .ok (w', d)) :
    (w'.data.map Prod.fst).Nodup ∧ framesWithinBudget steps w' := by
  unfold runNextStep at hrun
  by_cases h : w.next_idx < steps.length
  · rw [dif_pos h] at hrun
    have hmem : steps.get ⟨w.next_idx, h⟩ ∈ steps := List.get_mem steps _ _
    cases hexec : executeStep (steps.get ⟨w.next_idx, h⟩) w.next_idx
        { w with next_idx := w.next_idx + 1 } with
    | error e =>
      rw [hexec] at hrun
      simp at hrun
    | ok w'' =>
      rw [hexec] at hrun
      simp only [Except.ok.injEq, Prod.mk.injEq] at hrun
      obtain ⟨hw, -⟩ := hrun
      subst hw
      exact executeStep_preserves_inv steps _ w.next_idx
        { w with next_idx := w.next_idx + 1 } w'' hmem hWF hnd hinv hexec
  · rw [dif_neg h] at hrun
    simp only [Except.ok.injEq, Prod.mk.injEq] at hrun
    obtain ⟨hw, -⟩ := hrun
    subst hw
    exact ⟨hnd, hinv⟩

theorem reaches_preserves_inv (steps : List Step) (w₀ w : Workspace)
    (hWF : uniqueClose steps) (h₀nd : (w₀.data.map Prod.fst).Nodup)
    (h₀ : framesWithinBudget steps w₀) (hr : Reaches steps w₀ w) :
    (w.data.map Prod.fst).Nodup ∧ framesWithinBudget steps w := by
  induction hr with
  | refl => exact ⟨h₀nd, h₀⟩
  | step hreach hrun ih =>
    exact runNextStep_preserves_inv steps _ _ _ hWF ih.1 ih.2 hrun

theorem close_mem_append (steps xs : List Step)
    (hxs : ∀ id r, Step.closeLoop id r ∉ xs) (id : ℕ) (r : Int) :
    (Step.closeLoop id r ∈ steps ++ xs ↔ Step.closeLoop id r ∈ steps) := by
  rw [List.mem_append]
  exact ⟨fun h => h.elim (fun h => h) (fun h => absurd h (hxs id r)), Or.inl⟩

theorem compileItem_preserves_inv (st st' : CompileSt) (item : PatternItem)
    (h : compileItem st item = .ok st') (hinv : compileInv st) : compileInv st' := by
  obtain ⟨hA, hB, hC, hD, hE⟩ := hinv
  cases item with
  | colorItem c =>
    simp only [compileItem, Except.ok.injEq] at h
    subst h
    have hmm := close_mem_append st.steps [Step.setColor c] (by intro id r; simp)
    exact ⟨fun id r hm => hA id r ((hmm id r).mp hm), hB, hC,
      fun id r hm => hD id r ((hmm id r).mp hm),
      fun id r r' h1 h2 => hE id r r' ((hmm id r).mp h1) ((hmm id r').mp h2)⟩
  | openBracket =>
    simp only [compileItem, Except.ok.injEq] at h
    subst h
    have hmm := close_mem_append st.steps [Step.openLoop st.nextLoopId] (by intro id r; simp)
    refine ⟨?_, ?_, ?_, ?_, ?_⟩ <;> dsimp only
    · intro id r hm
      have hold := hA id r ((hmm id r).mp hm)
      have hlt := hD id r ((hmm id r).mp hm)
      simp only [List.mem_cons]
      rintro (hh | hh)
      · omega
      · exact hold hh
    · intro id hm
      simp only [List.mem_cons] at hm
      rcases hm with hh | hh
      · omega
      · have := hB id hh
        omega
    · refine List.Nodup.cons ?_ hC
      intro hmem
      have := hB _ hmem
      omega
    · intro id r hm
      have := hD id r ((hmm id r).mp hm)
      omega
    · intro id r r' h1 h2
      exact hE id r r' ((hmm id r).mp h1) ((hmm id r').mp h2)
  | closeBracket rr =>
    simp only [compileItem] at h
    cases hstack : st.loopStack with
    | nil =>
      rw [hstack] at h
      simp at h
    | cons id rest =>
      rw [hstack] at h
      simp only [Except.ok.injEq] at h
      subst h
      have hBs : ∀ x ∈ id :: rest, x < st.nextLoopId := by
        rw [← hstack]
        exact hB
      have hCs : (id :: rest).Nodup := by
        rw [← hstack]
        exact hC
      have hAs : ∀ i r, Step.closeLoop i r ∈ st.steps → i ∉ id :: rest := by
        intro i r hm
        have := hA i r hm
        rw [hstack] at this
        exact this
      refine ⟨?_, ?_, ?_, ?_, ?_⟩ <;> dsimp only
      · intro i r hm
        rw [List.mem_append] at hm
        rcases hm with hm | hm
        · have := hAs i r hm
          simp only [List.mem_cons] at this
          intro hmem
          exact this (Or.inr hmem)
        · simp only [List.mem_singleton, Step.closeLoop.injEq] at hm
          have hi : i = id := hm.1
          rw [hi]
          simp only [List.nodup_cons] at hCs
          exact hCs.1
      · intro i hm
        exact hBs i (List.mem_cons_of_mem id hm)
      · simp only [List.nodup_cons] at hCs
        exact hCs.2
      · intro i r hm
        rw [List.mem_append] at hm
        rcases hm with hm | hm
        · exact hD i r hm
        · simp only [List.mem_singleton, Step.closeLoop.injEq] at hm
          have hi : i = id := hm.1
          rw [hi]
          exact hBs id (List.mem_cons_self id rest)
      · intro i r1 r2 h1 h2
        rw [List.mem_append] at h1 h2
        rcases h1 with h1 | h1 <;> rcases h2 with h2 | h2
        · exact hE i r1 r2 h1 h2
        · exfalso
          simp only [List.mem_singleton, Step.closeLoop.injEq] at h2
          have hi : i = id := h2.1
          exact (hAs i r1 h1) (hi ▸ List.mem_cons_self id rest)
        · exfalso
          simp only [List.mem_singleton, Step.closeLoop.injEq] at h1
          have hi : i = id := h1.1
          exact (hAs i r2 h2) (hi ▸ List.mem_cons_self id rest)
        · simp only [List.mem_singleton, Step.closeLoop.injEq] at h1 h2
          omega
  | freeText parsed =>
    simp only [compileItem] at h
    cases hpd : parsed <|> st.lastItemDict with
    | none =>
      rw [hpd] at h
      simp at h
    | some d =>
      rw [hpd] at h
      simp only [Except.ok.injEq] at h
      subst h
      have hxs : ∀ id r,
          Step.closeLoop id r ∉
            [Step.setColor { rgb := d.rgb.getD WARM_WHITE_RGB }] ++
              (match d.delay with
               | some t => if t = 0 then [] else [Step.delay t]
               | none => []) := by
        intro id r
        simp only [List.mem_append, List.mem_singleton]
        rintro (hh | hh)
        · cases hh
        · cases hd : d.delay with
          | none => rw [hd] at hh; simp at hh
          | some t =>
            rw [hd] at hh
            by_cases ht : t = 0 <;> simp [ht] at hh
      have hmm : ∀ id r,
          (Step.closeLoop id r ∈ st.steps ++ [Step.setColor { rgb := d.rgb.getD WARM_WHITE_RGB }] ++
            (match d.delay with
             | some t => if t = 0 then [] else [Step.delay t]
             | none => []) ↔ Step.closeLoop id r ∈ st.steps) := by
        intro id r
        rw [List.append_assoc]
        exact close_mem_append st.steps _ (by intro i rr2; exact hxs i rr2) id r
      exact ⟨fun id r hm => hA id r ((hmm id r).mp hm), hB, hC,
        fun id r hm => hD id r ((hmm id r).mp hm),
        fun id r r' h1 h2 => hE id r r' ((hmm id r).mp h1) ((hmm id r').mp h2)⟩

theorem compilePattern_preserves_inv (pattern : List PatternItem) (st st' : CompileSt)
    (h : compilePattern pattern st = .ok st') (hinv : compileInv st) : compileInv st' := by
  induction pattern generalizing st with
  | nil =>
    simp only [compilePattern, Except.ok.injEq] at h
    subst h
    exact hinv
  | cons item t ih =>
    simp only [compilePattern] at h
    cases hstep : compileItem st item with
    | error e =>
      rw [hstep] at h
      simp at h
    | ok st₁ =>
      rw [hstep] at h
      exact ih st₁ h (compileItem_preserves_inv st st₁ item hstep hinv)

theorem create_from_pattern_uniqueClose (pattern : List PatternItem) (seq : LightSequence)
    (h : create_from_pattern pattern = .ok seq) :
    uniqueClose seq.steps ∧ seq.workspace.data = [] := by
  unfold create_from_pattern at h
  cases hcp : compilePattern pattern {} with
  | error e =>
    rw [hcp] at h
    simp at h
  | ok st =>
    rw [hcp] at h
    simp only [Except.ok.injEq] at h
    subst h
    have hinv0 : compileInv {} := by
      refine ⟨?_, ?_, ?_, ?_, ?_⟩
      · intro id r hm
        simp at hm
      · intro id hm
        simp at hm
      · exact List.nodup_nil
      · intro id r hm
        simp at hm
      · intro id r r' h1 h2
        simp at h1
    have hinv := compilePattern_preserves_inv pattern {} st hcp hinv0
    exact ⟨hinv.2.2.2.2, rfl⟩

/-- Claim C7: in every workspace reachable by executing VM steps of a
compiled program, the loop-frame dict holds no frame whose iteration count
has passed a non-negative repeat budget of its loop's `CloseLoop` step
(`r < 0` is the infinite budget). -/
theorem loopFrames_budget_not_exhausted (pattern : List PatternItem) (seq : LightSequence)
    (hc : create_from_pattern pattern = .ok seq) (w : Workspace)
    (hr : Reaches seq.steps seq.workspace w) :
    ∀ id info, dget w.data id = some info →
      ∀ r, Step.closeLoop id r ∈ seq.steps → r < 0 ∨ (info.loop_cnt : Int) ≤ r := by
  obtain ⟨hWF, hdata⟩ := create_from_pattern_uniqueClose pattern seq hc
  have h0nd : (seq.workspace.data.map Prod.fst).Nodup := by
    rw [hdata]
    exact List.nodup_nil
  have h0 : framesWithinBudget seq.steps seq.workspace := by
    intro id info hget
    rw [hdata] at hget
    cases hget
  exact (reaches_preserves_inv seq.steps seq.workspace w hWF h0nd h0 hr).2

/-- Witness for C7 on the compiled pattern `["[", A, "],2"]` after three VM
steps (open, set-color, close): the loop frame for id 1 holds iteration
count 1, within the repeat budget 2. -/
theorem loopFrames_budget_not_exhausted_witness :
    dget c7w3.data 1 = some { open_idx := 0, loop_cnt := 1 } ∧
    ((2 : Int) < 0 ∨ ((1 : ℕ) : Int) ≤ 2) := by
  refine ⟨rfl, ?_⟩
  have hchain : Reaches c7Steps c7w0 c7w3 :=
    Reaches.step
      (Reaches.step
        (Reaches.step (Reaches.refl c7w0)
          (show runNextStep c7Steps c7w0 = .ok (c7w1, false) by rfl))
        (show runNextStep c7Steps c7w1 = .ok (c7w2, false) by rfl))
      (show runNextStep c7Steps c7w2 = .ok (c7w3, false) by rfl)
  exact loopFrames_budget_not_exhausted
    [PatternItem.openBracket, PatternItem.colorItem { rgb := (10, 20, 30) },
     PatternItem.closeBracket 2]
    { steps := c7Steps, workspace := c7w0 }
    (by rfl) c7w3 hchain 1 { open_idx := 0, loop_cnt := 1 } rfl 2 (by simp [c7Steps])

theorem pyRound_eval (q : ℚ) (n : Int) (h1 : (n : ℚ) ≤ q) (h2 : q < n + 1) :
    pyRound q =
      if q - n < 1 / 2 then n else if 1 / 2 < q - n then n + 1
      else if n % 2 = 0 then n else n + 1 := by
  have hf : ⌊q⌋ = n := Int.floor_eq_iff.mpr ⟨h1, h2⟩
  unfold pyRound
  rw [hf]

theorem pyRound_nonneg (q : ℚ) (hq : 0 ≤ q) : 0 ≤ pyRound q := by
  have hf : (0 : Int) ≤ ⌊q⌋ := Int.floor_nonneg.mpr hq
  unfold pyRound
  dsimp only
  split_ifs <;> omega

theorem roundHalfUp_eval (q : ℚ) (n : Int) (h1 : (n : ℚ) ≤ q + 1 / 2) (h2 : q + 1 / 2 < n + 1) :
    roundHalfUp q = n := by
  unfold roundHalfUp
  exact Int.floor_eq_iff.mpr ⟨h1, h2⟩

theorem clampSpec_eq_min (z : Int) (hz : 0 ≤ z) : clampSpec z = min z 255 := by
  unfold clampSpec
  exact max_eq_right (le_min hz (by norm_num))

theorem zip_weighted_sum_nonneg (colors : List ColorInfo) (nw : List ℚ) (f : ColorInfo → ℚ)
    (hf : ∀ c ∈ colors, 0 ≤ f c) (hw : ∀ x ∈ nw, 0 ≤ x) :
    0 ≤ ((colors.zip nw).map (fun p => f p.1 * p.2)).sum := by
  refine List.sum_nonneg ?_
  intro x hx
  rw [List.mem_map] at hx
  obtain ⟨p, hp, rfl⟩ := hx
  have hmem := List.of_mem_zip hp
  exact mul_nonneg (hf p.1 hmem.1) (hw p.2 hmem.2)

/-- Claim C5, counterexample: the mixer's rounding is Python's `round`
(half to even), not round-half-up, and there is no lower clamp.  Mixing
`(255,0,0)@100` with `(254,0,0)@50` under equal weights gives channel sum
`254.5`, which the code rounds to `254` while the claimed half-up rule gives
`255`; mixing the out-of-range color `(-10,0,0)@100` alone passes `-10`
through while the claimed `[0,255]` clamp would give `0`. -/
theorem mix_colors_not_half_up_not_lower_clamped :
    mix_colors [{ rgb := (255, 0, 0), brightness := 100 }, { rgb := (254, 0, 0), brightness := 50 }]
        none =
      some { rgb := (254, 0, 0), brightness := 75 } ∧
    mixSpecClaim [{ rgb := (255, 0, 0), brightness := 100 },
        { rgb := (254, 0, 0), brightness := 50 }] none =
      some { rgb := (255, 0, 0), brightness := 75 } ∧
    mix_colors [{ rgb := (-10, 0, 0), brightness := 100 }] none =
      some { rgb := (-10, 0, 0), brightness := 100 } ∧
    mixSpecClaim [{ rgb := (-10, 0, 0), brightness := 100 }] none =
      some { rgb := (0, 0, 0), brightness := 100 } := by
  have hp0 : pyRound 0 = 0 := by
    rw [pyRound_eval 0 0 (by norm_num) (by norm_num)]
    norm_num
  have hp75 : pyRound 75 = 75 := by
    rw [pyRound_eval 75 75 (by norm_num) (by norm_num)]
    norm_num
  have hp2545 : pyRound (509 / 2 : ℚ) = 254 := by
    rw [pyRound_eval (509 / 2 : ℚ) 254 (by norm_num) (by norm_num)]
    norm_num
  have hp100 : pyRound 100 = 100 := by
    rw [pyRound_eval 100 100 (by norm_num) (by norm_num)]
    norm_num
  have hpm10 : pyRound (-10 : ℚ) = -10 := by
    rw [pyRound_eval (-10 : ℚ) (-10) (by norm_num) (by norm_num)]
    norm_num
  have hu0 : roundHalfUp 0 = 0 := roundHalfUp_eval 0 0 (by norm_num) (by norm_num)
  have hu75 : roundHalfUp 75 = 75 := roundHalfUp_eval 75 75 (by norm_num) (by norm_num)
  have hu2545 : roundHalfUp (509 / 2 : ℚ) = 255 :=
    roundHalfUp_eval (509 / 2 : ℚ) 255 (by norm_num) (by norm_num)
  have hu100 : roundHalfUp 100 = 100 := roundHalfUp_eval 100 100 (by norm_num) (by norm_num)
  have hum10 : roundHalfUp (-10 : ℚ) = -10 :=
    roundHalfUp_eval (-10 : ℚ) (-10) (by norm_num) (by norm_num)
  refine ⟨?_, ?_, ?_, ?_⟩
  · norm_num [mix_colors, List.replicate, List.zip_cons_cons, List.zip_nil_right,
      List.map_cons, List.map_nil, List.sum_cons, List.sum_nil, hp0, hp75, hp2545]
  · norm_num [mixSpecClaim, mixSpec, clampSpec, List.replicate, List.zip_cons_cons,
      List.zip_nil_right, List.map_cons, List.map_nil, List.sum_cons, List.sum_nil,
      hu0, hu75, hu2545]
  · norm_num [mix_colors, List.replicate, List.zip_cons_cons, List.zip_nil_right,
      List.map_cons, List.map_nil, List.sum_cons, List.sum_nil, hp0, hp100, hpm10]
  · norm_num [mixSpecClaim, mixSpec, clampSpec, List.replicate, List.zip_cons_cons,
      List.zip_nil_right, List.map_cons, List.map_nil, List.sum_cons, List.sum_nil,
      hu0, hu100, hum10]

/-- Claim C5 as amended: the Color Mixer normalizes the weights (uniform by
default), takes the weighted sum of each rgb channel and of brightness, and
rounds with Python's `round` — half to even, not half up — clamping only from
above at 255.  For colors with non-negative channels and brightness and
non-negative weights (every value the integration itself produces), this
coincides with the spec-style mixer that rounds half to even and clamps to
`[0, 255]`; the spec's own example mixes `(255,0,0)@100` and `(0,0,255)@50`
to `(128,0,128)@75`. -/
theorem mix_colors_matches_spec_half_even (colors : List ColorInfo)
    (weights : Option (List ℚ))
    (hcnn : ∀ c ∈ colors, 0 ≤ c.rgb.1 ∧ 0 ≤ c.rgb.2.1 ∧ 0 ≤ c.rgb.2.2 ∧ 0 ≤ c.brightness)
    (hwnn : ∀ x ∈ weights.getD (List.replicate colors.length 1), 0 ≤ x) :
    mix_colors colors weights = mixSpecAmended colors weights ∧
    mix_colors [{ rgb := (255, 0, 0), brightness := 100 },
        { rgb := (0, 0, 255), brightness := 50 }] none =
      some { rgb := (128, 0, 128), brightness := 75 } := by
  constructor
  · simp only [mix_colors, mixSpecAmended, mixSpec]
    by_cases hlen : (weights.getD (List.replicate colors.length 1)).length = colors.length
    · simp only [if_pos hlen]
      by_cases htot : (weights.getD (List.replicate colors.length 1)).sum = 0
      · simp only [if_pos htot]
      · simp only [if_neg htot]
        have htotnn : 0 ≤ (weights.getD (List.replicate colors.length 1)).sum :=
          List.sum_nonneg hwnn
        have hnwnn : ∀ x ∈ (weights.getD (List.replicate colors.length 1)).map
            (fun w => w / (weights.getD (List.replicate colors.length 1)).sum), 0 ≤ x := by
          intro x hx
          rw [List.mem_map] at hx
          obtain ⟨ww, hww, rfl⟩ := hx
          exact div_nonneg (hwnn ww hww) htotnn
        have hr := zip_weighted_sum_nonneg colors _ (fun c => (c.rgb.1 : ℚ))
          (fun c hc => by show (0 : ℚ) ≤ (c.rgb.1 : ℚ); exact_mod_cast (hcnn c hc).1) hnwnn
        have hg := zip_weighted_sum_nonneg colors _ (fun c => (c.rgb.2.1 : ℚ))
          (fun c hc => by show (0 : ℚ) ≤ (c.rgb.2.1 : ℚ); exact_mod_cast (hcnn c hc).2.1) hnwnn
        have hb := zip_weighted_sum_nonneg colors _ (fun c => (c.rgb.2.2 : ℚ))
          (fun c hc => by show (0 : ℚ) ≤ (c.rgb.2.2 : ℚ); exact_mod_cast (hcnn c hc).2.2.1) hnwnn
        have hbr := zip_weighted_sum_nonneg colors _ (fun c => c.brightness)
          (fun c hc => (hcnn c hc).2.2.2) hnwnn
        rw [clampSpec_eq_min _ (pyRound_nonneg _ hr), clampSpec_eq_min _ (pyRound_nonneg _ hg),
          clampSpec_eq_min _ (pyRound_nonneg _ hb), clampSpec_eq_min _ (pyRound_nonneg _ hbr)]
    · simp only [if_neg hlen]
  · have hp0 : pyRound 0 = 0 := by
      rw [pyRound_eval 0 0 (by norm_num) (by norm_num)]
      norm_num
    have hp75 : pyRound 75 = 75 := by
      rw [pyRound_eval 75 75 (by norm_num) (by norm_num)]
      norm_num
    have hp1275 : pyRound (255 / 2 : ℚ) = 128 := by
      rw [pyRound_eval (255 / 2 : ℚ) 127 (by norm_num) (by norm_num)]
      norm_num
    norm_num [mix_colors, List.replicate, List.zip_cons_cons, List.zip_nil_right,
      List.map_cons, List.map_nil, List.sum_cons, List.sum_nil, hp0, hp75, hp1275]

/-- Witness for the amended C5 at the spec's example input. -/
theorem mix_colors_matches_spec_half_even_witness :
    mix_colors [{ rgb := (255, 0, 0), brightness := 100 },
        { rgb := (0, 0, 255), brightness := 50 }] none =
      mixSpecAmended [{ rgb := (255, 0, 0), brightness := 100 },
        { rgb := (0, 0, 255), brightness := 50 }] none ∧
    mix_colors [{ rgb := (255, 0, 0), brightness := 100 },
        { rgb := (0, 0, 255), brightness := 50 }] none =
      some { rgb := (128, 0, 128), brightness := 75 } := by
  exact mix_colors_matches_spec_half_even
    [{ rgb := (255, 0, 0), brightness := 100 }, { rgb := (0, 0, 255), brightness := 50 }]
    none (by decide) (by decide)

theorem dget_setRunning_self (s : List (String × Anim)) (i : String) (b : Bool) :
    dget (setRunning s i b) i = (dget s i).map (fun a => { a with running := b }) := by
  induction s with
  | nil => simp [setRunning, dget]
  | cons p t ih =>
    obtain ⟨k, a⟩ := p
    by_cases hk : k = i
    · subst hk
      simp [setRunning, dget]
    · simp [setRunning, dget, hk, ih]

theorem dget_setRunning_ne (s : List (String × Anim)) (i k : String) (b : Bool) (h : k ≠ i) :
    dget (setRunning s i b) k = dget s k := by
  induction s with
  | nil => simp [setRunning]
  | cons p t ih =>
    obtain ⟨k', a⟩ := p
    by_cases hk : k' = i
    · subst hk
      have : ¬ (k' = k) := fun hh => h (hh ▸ rfl)
      simp [setRunning, dget, this]
    · by_cases hk2 : k' = k
      · simp [setRunning, dget, hk, hk2, h]
      · simp [setRunning, dget, hk, hk2, ih]

theorem dget_setRunning_priority (s : List (String × Anim)) (i k : String) (b : Bool) :
    (dget (setRunning s i b) k).map Anim.priority = (dget s k).map Anim.priority := by
  by_cases h : k = i
  · subst h
    rw [dget_setRunning_self]
    cases dget s k <;> rfl
  · rw [dget_setRunning_ne _ _ _ _ h]

theorem dget_stopFold (ids : List String) (s : List (String × Anim)) (k : String)
    (h : k ∉ ids) :
    dget (ids.foldl (fun s id => setRunning s id false) s) k = dget s k := by
  induction ids generalizing s with
  | nil => rfl
  | cons x t ih =>
    simp only [List.mem_cons] at h
    push_neg at h
    simp only [List.foldl_cons]
    rw [ih _ h.2, dget_setRunning_ne _ _ _ _ h.1]

theorem dget_stopFold_priority (ids : List String) (s : List (String × Anim)) (k : String) :
    (dget (ids.foldl (fun s id => setRunning s id false) s) k).map Anim.priority =
      (dget s k).map Anim.priority := by
  induction ids generalizing s with
  | nil => rfl
  | cons x t ih =>
    simp only [List.foldl_cons]
    rw [ih, dget_setRunning_priority]

theorem setRunning_keyPriority (s : List (String × Anim)) (i : String) (b : Bool) :
    (setRunning s i b).map (fun p => (p.1, p.2.priority)) =
      s.map (fun p => (p.1, p.2.priority)) := by
  induction s with
  | nil => rfl
  | cons p t ih =>
    obtain ⟨k, a⟩ := p
    by_cases hk : k = i
    · subst hk
      simp [setRunning]
    · simp [setRunning, hk, ih]

theorem stopFold_keyPriority (ids : List String) (s : List (String × Anim)) :
    ((ids.foldl (fun s id => setRunning s id false) s)).map (fun p => (p.1, p.2.priority)) =
      s.map (fun p => (p.1, p.2.priority)) := by
  induction ids generalizing s with
  | nil => rfl
  | cons x t ih =>
    simp only [List.foldl_cons]
    rw [ih, setRunning_keyPriority]

theorem insSeqs_keyPriority (st : LightState) :
    (insSeqs st).map (fun p => (p.1, p.2.priority)) =
      st.sequences.map (fun p => (p.1, p.2.priority)) := by
  unfold insSeqs
  cases hs : st.sequences with
  | nil => rfl
  | cons p t =>
    obtain ⟨id0, a0⟩ := p
    by_cases hmem : id0 ∈ st.active
    · simp [hmem]
    · simp [hmem, setRunning_keyPriority]

theorem seqsFinal_keyPriority (st : LightState) :
    (seqsFinal st).map (fun p => (p.1, p.2.priority)) =
      st.sequences.map (fun p => (p.1, p.2.priority)) := by
  unfold seqsFinal
  rw [stopFold_keyPriority, insSeqs_keyPriority]

theorem insSeqs_dget_priority (st : LightState) (k : String) :
    (dget (insSeqs st) k).map Anim.priority = (dget st.sequences k).map Anim.priority := by
  unfold insSeqs
  cases hs : st.sequences with
  | nil => rfl
  | cons p t =>
    obtain ⟨id0, a0⟩ := p
    by_cases hmem : id0 ∈ st.active
    · simp [hmem, hs]
    · simp only [hmem, ite_false]
      rw [← hs, dget_setRunning_priority]

theorem seqsFinal_dget_priority (st : LightState) (k : String) :
    (dget (seqsFinal st) k).map Anim.priority = (dget st.sequences k).map Anim.priority := by
  unfold seqsFinal
  rw [dget_stopFold_priority, insSeqs_dget_priority]

theorem seqsFinal_cons (st : LightState) (id0 : String) (a0 : Anim)
    (rest : List (String × Anim)) (hne : st.sequences = (id0, a0) :: rest) :
    ∃ a0' rest', seqsFinal st = (id0, a0') :: rest' ∧ a0'.priority = a0.priority := by
  have hshape := seqsFinal_keyPriority st
  rw [hne] at hshape
  cases hsf : seqsFinal st with
  | nil =>
    rw [hsf] at hshape
    simp at hshape
  | cons q t =>
    obtain ⟨k, a⟩ := q
    rw [hsf] at hshape
    simp only [List.map_cons, List.cons.injEq, Prod.mk.injEq] at hshape
    exact ⟨a, t, by rw [hshape.1.1], hshape.1.2⟩

theorem head_mem_insActive (st : LightState) (id0 : String) (a0 : Anim)
    (rest : List (String × Anim)) (hne : st.sequences = (id0, a0) :: rest) :
    id0 ∈ insActive st := by
  unfold insActive
  rw [hne]
  by_cases hmem : id0 ∈ st.active
  · simp only [if_pos hmem]
    exact hmem
  · simp [hmem]

theorem head_dget_insSeqs (st : LightState) (id0 : String) (a0 : Anim)
    (rest : List (String × Anim)) (hne : st.sequences = (id0, a0) :: rest) :
    ∃ a, dget (insSeqs st) id0 = some a ∧ a.priority = a0.priority ∧
      (id0 ∉ st.active → a = { a0 with running := true }) := by
  have hd : dget st.sequences id0 = some a0 := by
    rw [hne]
    simp [dget]
  unfold insSeqs
  rw [hne]
  dsimp only
  by_cases hmem : id0 ∈ st.active
  · refine ⟨a0, ?_, rfl, fun hh => absurd hmem hh⟩
    rw [if_pos hmem]
    simp [dget]
  · refine ⟨{ a0 with running := true }, ?_, rfl, fun _ => rfl⟩
    rw [if_neg hmem, dget_setRunning_self]
    simp [dget]

theorem head_keepB (st : LightState) (id0 : String) (a0 : Anim)
    (rest : List (String × Anim)) (hne : st.sequences = (id0, a0) :: rest) :
    keepB st id0 = true := by
  obtain ⟨a, ha, hpri, -⟩ := head_dget_insSeqs st id0 a0 rest hne
  unfold keepB
  rw [hne]
  dsimp only
  rw [ha]
  simp [hpri]

theorem head_mem_keptIds (st : LightState) (id0 : String) (a0 : Anim)
    (rest : List (String × Anim)) (hne : st.sequences = (id0, a0) :: rest) :
    id0 ∈ keptIds st := by
  unfold keptIds
  rw [List.mem_filter]
  exact ⟨head_mem_insActive st id0 a0 rest hne, head_keepB st id0 a0 rest hne⟩

theorem head_notin_removedIds (st : LightState) (id0 : String) (a0 : Anim)
    (rest : List (String × Anim)) (hne : st.sequences = (id0, a0) :: rest) :
    id0 ∉ removedIds st := by
  unfold removedIds
  intro hmem
  rw [List.mem_filter] at hmem
  have := head_keepB st id0 a0 rest hne
  rw [this] at hmem
  simp at hmem

theorem dget_seqsFinal_of_kept (st : LightState) (k : String) (h : k ∉ removedIds st) :
    dget (seqsFinal st) k = dget (insSeqs st) k :=
  dget_stopFold (removedIds st) (insSeqs st) k h

theorem mix_default_some (xs : List ColorInfo) (h : xs ≠ []) :
    ∃ m, mix_colors xs none = some m := by
  unfold mix_colors
  simp only [Option.getD_none, List.length_replicate, eq_self_iff_true, if_true]
  have hlen : xs.length ≠ 0 := fun hh => h (List.length_eq_zero.mp hh)
  have hsum : (List.replicate xs.length (1 : ℚ)).sum = (xs.length : ℚ) := by
    rw [List.sum_replicate]
    simp
  rw [hsum]
  rw [if_neg (show ¬ ((xs.length : ℚ) = 0) by exact_mod_cast hlen)]
  exact ⟨_, rfl⟩

theorem mixedOf_some (st : LightState) (id0 : String) (a0 : Anim)
    (rest : List (String × Anim)) (hne : st.sequences = (id0, a0) :: rest) :
    ∃ m, mixedOf st = some m := by
  obtain ⟨a, ha, -, -⟩ := head_dget_insSeqs st id0 a0 rest hne
  have hdf : dget (seqsFinal st) id0 = some a := by
    rw [dget_seqsFinal_of_kept st id0 (head_notin_removedIds st id0 a0 rest hne)]
    exact ha
  have hmemcol : a.color ∈ colorsOf st := by
    unfold colorsOf
    rw [List.mem_filterMap]
    exact ⟨id0, head_mem_keptIds st id0 a0 rest hne, by rw [hdf]; rfl⟩
  exact mix_default_some (colorsOf st) (List.ne_nil_of_mem hmemcol)

theorem updateLightColor_shape (st : LightState) (id0 : String) (a0 : Anim)
    (rest : List (String × Anim)) (hne : st.sequences = (id0, a0) :: rest) :
    ∃ m, mixedOf st = some m ∧
      updateLightColor st =
        some ({ sequences := seqsFinal st, active := keptIds st, last_set_color := some m },
              if some m ≠ st.last_set_color then some m else none) := by
  obtain ⟨m, hm⟩ := mixedOf_some st id0 a0 rest hne
  refine ⟨m, hm, ?_⟩
  unfold updateLightColor
  rw [hne]
  dsimp only
  rw [hm]
  dsimp only
  by_cases hch : some m ≠ st.last_set_color
  · rw [if_pos hch, if_pos hch]
  · rw [if_neg hch, if_neg hch]
    push_neg at hch
    rw [hch]

theorem kept_priority (st : LightState) (id0 : String) (a0 : Anim)
    (rest : List (String × Anim)) (hne : st.sequences = (id0, a0) :: rest)
    (id : String) (hid : id ∈ keptIds st) :
    ∃ a', dget (insSeqs st) id = some a' ∧ a0.priority ≤ a'.priority := by
  unfold keptIds at hid
  rw [List.mem_filter] at hid
  have hk := hid.2
  unfold keepB at hk
  rw [hne] at hk
  dsimp only at hk
  cases hd : dget (insSeqs st) id with
  | none =>
    rw [hd] at hk
    simp at hk
  | some a' =>
    rw [hd] at hk
    simp only [decide_eq_true_eq] at hk
    exact ⟨a', rfl, hk⟩

theorem kept_top_priority (st : LightState) (id0 : String) (a0 : Anim)
    (rest : List (String × Anim)) (hne : st.sequences = (id0, a0) :: rest)
    (hmax : ∀ p ∈ st.sequences, p.2.priority ≤ a0.priority)
    (id : String) (hid : id ∈ keptIds st) :
    ∃ a, dget st.sequences id = some a ∧ a.priority = a0.priority := by
  obtain ⟨a', hd', hge⟩ := kept_priority st id0 a0 rest hne id hid
  have hpri : (dget st.sequences id).map Anim.priority = some a'.priority := by
    rw [← insSeqs_dget_priority st id, hd']
    rfl
  cases hda : dget st.sequences id with
  | none =>
    rw [hda] at hpri
    exact Option.noConfusion hpri
  | some a =>
    rw [hda] at hpri
    have hpa : a.priority = a'.priority := Option.some.inj hpri
    have hmem := dget_mem st.sequences id a hda
    have hle := hmax (id, a) hmem
    refine ⟨a, rfl, le_antisymm hle ?_⟩
    rw [hpa]
    exact hge

theorem insSeqs_of_head_mem (st : LightState) (id0 : String) (a0 : Anim)
    (rest : List (String × Anim)) (hne : st.sequences = (id0, a0) :: rest)
    (hmem : id0 ∈ st.active) : insSeqs st = st.sequences := by
  unfold insSeqs
  rw [hne]
  dsimp only
  rw [if_pos hmem]

theorem insActive_of_head_mem (st : LightState) (id0 : String) (a0 : Anim)
    (rest : List (String × Anim)) (hne : st.sequences = (id0, a0) :: rest)
    (hmem : id0 ∈ st.active) : insActive st = st.active := by
  unfold insActive
  rw [hne]
  dsimp only
  rw [if_pos hmem]

theorem updateLightColor_second_pass (st : LightState) (id0 : String) (a0 : Anim)
    (rest : List (String × Anim)) (hne : st.sequences = (id0, a0) :: rest)
    (m : ColorInfo) (hm : mixedOf st = some m) (st₁ : LightState)
    (hseq : st₁.sequences = seqsFinal st) (hact : st₁.active = keptIds st)
    (hlast : st₁.last_set_color = some m) :
    updateLightColor st₁ = some (st₁, none) := by
  obtain ⟨a0', rest', hsf, hpri0⟩ := seqsFinal_cons st id0 a0 rest hne
  have hne₁ : st₁.sequences = (id0, a0') :: rest' := by
    rw [hseq]
    exact hsf
  have hmem₁ : id0 ∈ st₁.active := by
    rw [hact]
    exact head_mem_keptIds st id0 a0 rest hne
  have hins : insSeqs st₁ = seqsFinal st := by
    rw [insSeqs_of_head_mem st₁ id0 a0' rest' hne₁ hmem₁, hseq]
  have hinsA : insActive st₁ = keptIds st := by
    rw [insActive_of_head_mem st₁ id0 a0' rest' hne₁ hmem₁, hact]
  have hkeep : ∀ id ∈ keptIds st, keepB st₁ id = true := by
    intro id hid
    obtain ⟨a', hd', hge⟩ := kept_priority st id0 a0 rest hne id hid
    have hpri2 : (dget (seqsFinal st) id).map Anim.priority = some a'.priority := by
      rw [seqsFinal_dget_priority st id, ← insSeqs_dget_priority st id, hd']
      rfl
    cases hdf : dget (seqsFinal st) id with
    | none =>
      rw [hdf] at hpri2
      exact Option.noConfusion hpri2
    | some a'' =>
      rw [hdf] at hpri2
      have h1 : a''.priority = a'.priority := Option.some.inj hpri2
      unfold keepB
      rw [hne₁]
      dsimp only
      rw [hins, hdf]
      simp only [decide_eq_true_eq]
      rw [hpri0, h1]
      exact hge
  have hkept₁ : keptIds st₁ = keptIds st := by
    unfold keptIds
    rw [hinsA]
    exact List.filter_eq_self.mpr hkeep
  have hrem₁ : removedIds st₁ = [] := by
    unfold removedIds
    rw [hinsA, List.filter_eq_nil_iff]
    intro id hid
    rw [hkeep id hid]
    simp
  have hsf₁ : seqsFinal st₁ = seqsFinal st := by
    unfold seqsFinal
    rw [hrem₁, hins]
    rfl
  have hcol : colorsOf st₁ = colorsOf st := by
    unfold colorsOf
    rw [hkept₁, hsf₁]
  have hmix₁ : mixedOf st₁ = some m := by
    unfold mixedOf
    rw [hcol]
    exact hm
  obtain ⟨m₂, hm₂, hupd⟩ := updateLightColor_shape st₁ id0 a0' rest' hne₁
  rw [hmix₁] at hm₂
  have hm₂' : m₂ = m := (Option.some.inj hm₂).symm
  subst hm₂'
  rw [hupd, hlast]
  rw [if_neg (by simp)]
  rw [hsf₁, hkept₁, ← hseq, ← hact, ← hlast]

/-- Claim C6: within one `process()` pass on a non-empty sequence dict, the
output sink is invoked iff the freshly mixed color differs from
`LastOutputColor`, `LastOutputColor` ends up holding the mixed color either
way, and a second `process()` pass with no intervening commands, step
completions, or color changes performs no further sink call. -/
theorem updateLightColor_sink_iff_changed_idempotent (st : LightState) (id0 : String)
    (a0 : Anim) (rest : List (String × Anim)) (hne : st.sequences = (id0, a0) :: rest) :
    ∃ m st₁ call₁,
      mixedOf st = some m ∧
      updateLightColor st = some (st₁, call₁) ∧
      (call₁ ≠ none ↔ some m ≠ st.last_set_color) ∧
      st₁.last_set_color = some m ∧
      updateLightColor st₁ = some (st₁, none) := by
  obtain ⟨m, hm, hupd⟩ := updateLightColor_shape st id0 a0 rest hne
  refine ⟨m, _, _, hm, hupd, ?_, rfl, ?_⟩
  · by_cases hch : some m ≠ st.last_set_color
    · rw [if_pos hch]
      simp [hch]
    · rw [if_neg hch]
      simpa using hch
  · exact updateLightColor_second_pass st id0 a0 rest hne m hm _ rfl rfl rfl

/-- Witness for C6 on a one-notification state. -/
theorem updateLightColor_sink_iff_changed_idempotent_witness :
    ∃ m st₁ call₁,
      mixedOf stSingle = some m ∧
      updateLightColor stSingle = some (st₁, call₁) ∧
      (call₁ ≠ none ↔ some m ≠ stSingle.last_set_color) ∧
      st₁.last_set_color = some m ∧
      updateLightColor st₁ = some (st₁, none) :=
  updateLightColor_sink_iff_changed_idempotent stSingle "n1"
    { priority := 5, running := false, color := { rgb := (255, 0, 0) } } [] rfl

/-- Claim C1, counterexample: after one `process()` pass on the `[10, 5, 10]`
state, the second priority-10 entry (`n3`) — although its priority equals the
maximum — is NOT in the visible set and is NOT running: the code only ever
inserts and runs the first entry of the sorted dict. -/
theorem updateLightColor_tied_entry_not_started :
    ∃ st' call, updateLightColor stTied = some (st', call) ∧
      (dget stTied.sequences "n3").map Anim.priority = some 10 ∧
      (∀ p ∈ stTied.sequences, p.2.priority ≤ 10) ∧
      "n3" ∉ st'.active ∧
      (dget st'.sequences "n3").map Anim.running = some false := by
  obtain ⟨m, hm, hupd⟩ := updateLightColor_shape stTied "n1"
    { priority := 10, running := false, color := { rgb := (255, 0, 0) } }
    [("n3", { priority := 10, running := false, color := { rgb := (0, 0, 255) } }),
     ("n2", { priority := 5, running := false, color := { rgb := (0, 255, 0) } })] rfl
  refine ⟨_, _, hupd, by decide, by decide, ?_, ?_⟩
  · show "n3" ∉ keptIds stTied
    decide
  · show (dget (seqsFinal stTied) "n3").map Anim.running = some false
    decide

/-- Claim C1 as amended: one `process()` pass always inserts and runs the
FIRST entry of the (descending-priority-sorted) sequence dict — not every
entry of maximal priority — and every entry remaining in the visible set is a
sequence-dict member of maximal priority.  Tied entries beyond the first are
neither inserted nor started (see the counterexample). -/
theorem updateLightColor_head_visible_top_only (st : LightState) (id0 : String)
    (a0 : Anim) (rest : List (String × Anim)) (hne : st.sequences = (id0, a0) :: rest)
    (hmax : ∀ p ∈ st.sequences, p.2.priority ≤ a0.priority) :
    ∃ st' call, updateLightColor st = some (st', call) ∧
      id0 ∈ st'.active ∧
      (id0 ∉ st.active → (dget st'.sequences id0).map Anim.running = some true) ∧
      (∀ id ∈ st'.active, ∃ a, dget st.sequences id = some a ∧
        a.priority = a0.priority) := by
  obtain ⟨m, hm, hupd⟩ := updateLightColor_shape st id0 a0 rest hne
  refine ⟨_, _, hupd, head_mem_keptIds st id0 a0 rest hne, ?_, ?_⟩
  · intro hnotin
    obtain ⟨a, ha, hpri, hrun⟩ := head_dget_insSeqs st id0 a0 rest hne
    show (dget (seqsFinal st) id0).map Anim.running = some true
    rw [dget_seqsFinal_of_kept st id0 (head_notin_removedIds st id0 a0 rest hne), ha,
      hrun hnotin]
    rfl
  · intro id hid
    exact kept_top_priority st id0 a0 rest hne hmax id hid

/-- Witness for the amended C1 on the `[10, 5, 10]` state: the head entry
`n1` becomes visible and running, and everything visible has priority 10. -/
theorem updateLightColor_head_visible_top_only_witness :
    ∃ st' call, updateLightColor stTied = some (st', call) ∧
      "n1" ∈ st'.active ∧
      ("n1" ∉ stTied.active → (dget st'.sequences "n1").map Anim.running = some true) ∧
      (∀ id ∈ st'.active, ∃ a, dget stTied.sequences id = some a ∧ a.priority = 10) :=
  updateLightColor_head_visible_top_only stTied "n1"
    { priority := 10, running := false, color := { rgb := (255, 0, 0) } }
    [("n3", { priority := 10, running := false, color := { rgb := (0, 0, 255) } }),
     ("n2", { priority := 5, running := false, color := { rgb := (0, 255, 0) } })]
    rfl (by decide)





